import Mathlib

/-!
Verification of the rattlebeaver retention decision engine.

This file gives a shallow embedding of the engine found in
`src/timestamp.rs`, `src/entry.rs` and `src/mark.rs`:

* `Timestamp` models `chrono::DateTime<Local>` as a plain calendar record
  (year, month, day, hour, minute, second, nanosecond) under a fixed local
  offset (no DST transitions and no leap seconds, which `chrono` does not
  model either).  Chronological comparison of two such instants is the
  lexicographic comparison of the fields.
* `Timestamp.shift` models `Timestamp::shift`: minute, hour and day shifts
  are fixed-duration steps on the timeline (`chrono::Duration`), realised
  here by iterating single-unit successor/predecessor functions; month and
  year shifts are the calendar-relative, day-clamping arithmetic of
  `chronoutil::RelativeDuration`.
* `Timestamp.floor` models `Timestamp::floor`, each granularity defined
  from the previous one exactly as in the source.
* `read_dir`, `read_backups`, `mark_range` and their helpers model the
  entry collection step and the marking engine, with `anyhow` errors
  replaced by the explicit `EngineError` type.
-/

/-- Model of `chrono::DateTime<Local>` (the payload of `Timestamp` in
`src/timestamp.rs`): a local calendar instant with nanosecond precision,
under a fixed local offset. -/
@[ext]
structure Timestamp where
  year : Int
  month : Nat
  day : Nat
  hour : Nat
  minute : Nat
  second : Nat
  nano : Nat
deriving DecidableEq, Repr

/-- Chronological order of local instants: under a fixed offset the derived
`Ord` of `chrono::DateTime` (which compares instants) is the lexicographic
order on the calendar fields, nanoseconds included. -/
def Timestamp.le (a b : Timestamp) : Prop :=
  a.year < b.year ∨ a.year = b.year ∧ (a.month < b.month ∨ a.month = b.month ∧
    (a.day < b.day ∨ a.day = b.day ∧ (a.hour < b.hour ∨ a.hour = b.hour ∧
    (a.minute < b.minute ∨ a.minute = b.minute ∧
    (a.second < b.second ∨ a.second = b.second ∧ a.nano ≤ b.nano)))))

/-- Strict chronological order. -/
def Timestamp.lt (a b : Timestamp) : Prop :=
  a.year < b.year ∨ a.year = b.year ∧ (a.month < b.month ∨ a.month = b.month ∧
    (a.day < b.day ∨ a.day = b.day ∧ (a.hour < b.hour ∨ a.hour = b.hour ∧
    (a.minute < b.minute ∨ a.minute = b.minute ∧
    (a.second < b.second ∨ a.second = b.second ∧ a.nano < b.nano)))))

instance : DecidableRel Timestamp.le := fun a b => by
  unfold Timestamp.le; exact inferInstance

instance : DecidableRel Timestamp.lt := fun a b => by
  unfold Timestamp.lt; exact inferInstance

theorem Timestamp.le_refl (a : Timestamp) : Timestamp.le a a := by
  unfold Timestamp.le; omega

theorem Timestamp.le_total (a b : Timestamp) :
    Timestamp.le a b ∨ Timestamp.le b a := by
  unfold Timestamp.le; omega

theorem Timestamp.le_trans {a b c : Timestamp} (h1 : Timestamp.le a b)
    (h2 : Timestamp.le b c) : Timestamp.le a c := by
  unfold Timestamp.le at h1 h2 ⊢; omega

theorem Timestamp.le_antisymm {a b : Timestamp} (h1 : Timestamp.le a b)
    (h2 : Timestamp.le b a) : a = b := by
  cases a; cases b
  simp only [Timestamp.le] at h1 h2
  simp only [Timestamp.mk.injEq]
  omega

theorem Timestamp.lt_iff_le_not_le {a b : Timestamp} :
    Timestamp.lt a b ↔ Timestamp.le a b ∧ ¬ Timestamp.le b a := by
  unfold Timestamp.lt Timestamp.le; omega

theorem Timestamp.lt_iff_le_ne {a b : Timestamp} :
    Timestamp.lt a b ↔ Timestamp.le a b ∧ a ≠ b := by
  cases a; cases b
  unfold Timestamp.lt Timestamp.le
  simp only [ne_eq, Timestamp.mk.injEq]
  omega

theorem Timestamp.lt_irrefl (a : Timestamp) : ¬ Timestamp.lt a a := by
  unfold Timestamp.lt; omega

theorem Timestamp.lt_trans {a b c : Timestamp} (h1 : Timestamp.lt a b)
    (h2 : Timestamp.lt b c) : Timestamp.lt a c := by
  unfold Timestamp.lt at h1 h2 ⊢; omega

theorem Timestamp.le_of_lt {a b : Timestamp} (h : Timestamp.lt a b) :
    Timestamp.le a b := by
  unfold Timestamp.lt at h; unfold Timestamp.le; omega

instance : IsTotal Timestamp Timestamp.le := ⟨Timestamp.le_total⟩

instance : IsTrans Timestamp Timestamp.le := ⟨fun _ _ _ => Timestamp.le_trans⟩

instance : IsRefl Timestamp Timestamp.le := ⟨Timestamp.le_refl⟩

/-- Gregorian leap year test (the calendar rule implemented by `chrono`). -/
def isLeapYear (y : Int) : Bool :=
  (y % 4 == 0 && y % 100 != 0) || y % 400 == 0

/-- Number of days in a calendar month (the calendar rule implemented by
`chrono`).  The catch-all arm is irrelevant for representable dates. -/
def daysInMonth (y : Int) (m : Nat) : Nat :=
  match m with
  | 2 => if isLeapYear y then 29 else 28
  | 4 | 6 | 9 | 11 => 30
  | _ => 31

theorem daysInMonth_pos (y : Int) (m : Nat) : 1 ≤ daysInMonth y m := by
  unfold daysInMonth
  split <;> first | (split <;> decide) | decide

/-- Model of `Range` in `src/timestamp.rs`. -/
inductive Range where
  | Minute
  | Hour
  | Day
  | Month
  | Year
deriving DecidableEq, Repr

/-- Model of `Timestamp::floor` (`src/timestamp.rs` lines 41-61): each floor
is obtained from the previous one exactly as in the source (`minute` zeroes
seconds and nanoseconds, `hour` additionally zeroes minutes, `day` the hour,
`month` resets the day to 1, `year` resets the month to 1). -/
def Timestamp.floor (t : Timestamp) (r : Range) : Timestamp :=
  let minuteF := { t with second := 0, nano := 0 }
  let hourF := { minuteF with minute := 0 }
  let dayF := { hourF with hour := 0 }
  let monthF := { dayF with day := 1 }
  let yearF := { monthF with month := 1 }
  match r with
  | .Minute => minuteF
  | .Hour => hourF
  | .Day => dayF
  | .Month => monthF
  | .Year => yearF

/-- One calendar day forward: adding `chrono::Duration::days(1)` (86400
seconds) to a valid local instant under a fixed offset keeps the time of day
and moves the date to the next calendar day. -/
def Timestamp.nextDay (t : Timestamp) : Timestamp :=
  if t.day + 1 ≤ daysInMonth t.year t.month then { t with day := t.day + 1 }
  else if t.month + 1 ≤ 12 then { t with month := t.month + 1, day := 1 }
  else { t with year := t.year + 1, month := 1, day := 1 }

/-- One calendar day backward (subtracting 86400 seconds). -/
def Timestamp.prevDay (t : Timestamp) : Timestamp :=
  if 2 ≤ t.day then { t with day := t.day - 1 }
  else if 2 ≤ t.month then
    { t with month := t.month - 1, day := daysInMonth t.year (t.month - 1) }
  else { t with year := t.year - 1, month := 12, day := 31 }

/-- One hour forward (adding 3600 seconds). -/
def Timestamp.nextHour (t : Timestamp) : Timestamp :=
  if t.hour + 1 ≤ 23 then { t with hour := t.hour + 1 }
  else { t.nextDay with hour := 0 }

/-- One hour backward. -/
def Timestamp.prevHour (t : Timestamp) : Timestamp :=
  if 1 ≤ t.hour then { t with hour := t.hour - 1 }
  else { t.prevDay with hour := 23 }

/-- One minute forward (adding 60 seconds). -/
def Timestamp.nextMinute (t : Timestamp) : Timestamp :=
  if t.minute + 1 ≤ 59 then { t with minute := t.minute + 1 }
  else { t.nextHour with minute := 0 }

/-- One minute backward. -/
def Timestamp.prevMinute (t : Timestamp) : Timestamp :=
  if 1 ≤ t.minute then { t with minute := t.minute - 1 }
  else { t.prevHour with minute := 59 }

/-- A fixed-duration shift by a signed number of units, realised by iterating
the single-unit step (`chrono::Duration` arithmetic adds an exact number of
seconds to the instant). -/
def stepBy (next prev : Timestamp → Timestamp) (amount : Int) (t : Timestamp) :
    Timestamp :=
  if 0 ≤ amount then next^[amount.toNat] t else prev^[(-amount).toNat] t

/-- Model of `chronoutil::RelativeDuration::months`: calendar-relative month
arithmetic with day-of-month clamping (`shift_months`). -/
def Timestamp.shiftMonths (t : Timestamp) (k : Int) : Timestamp :=
  let m0 : Int := (t.month : Int) - 1 + k
  let y : Int := t.year + Int.ediv m0 12
  let m : Nat := (Int.emod m0 12).toNat + 1
  { t with year := y, month := m, day := min t.day (daysInMonth y m) }

/-- Model of `Timestamp::shift` (`src/timestamp.rs` lines 29-39): minute,
hour and day shifts are fixed-duration; month shifts use
`RelativeDuration::months(amount)` and year shifts
`RelativeDuration::years(amount)` = `months(12 * amount)`. -/
def Timestamp.shift (t : Timestamp) (r : Range) (amount : Int) : Timestamp :=
  match r with
  | .Minute => stepBy Timestamp.nextMinute Timestamp.prevMinute amount t
  | .Hour => stepBy Timestamp.nextHour Timestamp.prevHour amount t
  | .Day => stepBy Timestamp.nextDay Timestamp.prevDay amount t
  | .Month => t.shiftMonths amount
  | .Year => t.shiftMonths (12 * amount)

/-- Model of `Timestamp::now` (`src/timestamp.rs` lines 14-18):
`Self(Local::now())` wraps whatever instant the ambient clock reports,
without any truncation.  The clock reading is passed explicitly. -/
def Timestamp.now (localNow : Timestamp) : Timestamp := localNow

/-- A calendar record that `chrono` can actually represent: every
`Timestamp` observed by the running program satisfies this. -/
def Timestamp.Valid (t : Timestamp) : Prop :=
  1 ≤ t.month ∧ t.month ≤ 12 ∧ 1 ≤ t.day ∧ t.day ≤ daysInMonth t.year t.month ∧
    t.hour < 24 ∧ t.minute < 60 ∧ t.second < 60 ∧ t.nano < 1000000000

instance (t : Timestamp) : Decidable t.Valid := by
  unfold Timestamp.Valid; exact inferInstance

/-- The reference instant used to instantiate scenario checks:
2024-05-10 12:00:00 local time. -/
def sampleT : Timestamp := ⟨2024, 5, 10, 12, 0, 0, 0⟩

/-- C6: monotonic flooring — for every (representable) Timestamp `t`,
`t.floor Year ≤ t.floor Month ≤ t.floor Day ≤ t.floor Hour ≤
t.floor Minute ≤ t` under the Timestamp total order. -/
theorem floor_ladder_monotone (t : Timestamp) (h : t.Valid) :
    Timestamp.le (t.floor .Year) (t.floor .Month) ∧
    Timestamp.le (t.floor .Month) (t.floor .Day) ∧
    Timestamp.le (t.floor .Day) (t.floor .Hour) ∧
    Timestamp.le (t.floor .Hour) (t.floor .Minute) ∧
    Timestamp.le (t.floor .Minute) t := by
  cases t with
  | mk y mo d hh mm ss nn =>
    simp only [Timestamp.Valid] at h
    refine ⟨?_, ?_, ?_, ?_, ?_⟩ <;>
      simp [Timestamp.floor, Timestamp.le] <;> omega

/-- Witness for C6 at the concrete instant 2024-02-29 13:45:06. -/
theorem floor_ladder_monotone_w :
    (Timestamp.Valid ⟨2024, 2, 29, 13, 45, 6, 7⟩) ∧
    (Timestamp.le ((⟨2024, 2, 29, 13, 45, 6, 7⟩ : Timestamp).floor .Year)
      ((⟨2024, 2, 29, 13, 45, 6, 7⟩ : Timestamp).floor .Month) ∧
    Timestamp.le ((⟨2024, 2, 29, 13, 45, 6, 7⟩ : Timestamp).floor .Month)
      ((⟨2024, 2, 29, 13, 45, 6, 7⟩ : Timestamp).floor .Day) ∧
    Timestamp.le ((⟨2024, 2, 29, 13, 45, 6, 7⟩ : Timestamp).floor .Day)
      ((⟨2024, 2, 29, 13, 45, 6, 7⟩ : Timestamp).floor .Hour) ∧
    Timestamp.le ((⟨2024, 2, 29, 13, 45, 6, 7⟩ : Timestamp).floor .Hour)
      ((⟨2024, 2, 29, 13, 45, 6, 7⟩ : Timestamp).floor .Minute) ∧
    Timestamp.le ((⟨2024, 2, 29, 13, 45, 6, 7⟩ : Timestamp).floor .Minute)
      ⟨2024, 2, 29, 13, 45, 6, 7⟩) :=
  ⟨by decide, floor_ladder_monotone ⟨2024, 2, 29, 13, 45, 6, 7⟩ (by decide)⟩

/-- C7: shifting a month-floored timestamp by any whole number of months
yields a timestamp that is already month-floored. -/
theorem shift_month_floored (t : Timestamp) (k : Int) :
    ((t.floor .Month).shift .Month k).floor .Month
      = (t.floor .Month).shift .Month k := by
  cases t with
  | mk y mo d hh mm ss nn =>
    have h := daysInMonth_pos (y + Int.ediv ((mo : Int) - 1 + k) 12)
      ((Int.emod ((mo : Int) - 1 + k) 12).toNat + 1)
    simp [Timestamp.floor, Timestamp.shift, Timestamp.shiftMonths,
      Timestamp.mk.injEq]
    omega

/-- C2 counterexample: `Timestamp::now` is `Self(Local::now())`; a clock
reading with a nonzero nanosecond component is wrapped unchanged, so the
returned value does not have a zero sub-second component. -/
theorem now_keeps_subseconds_cex :
    (Timestamp.now ⟨2024, 1, 2, 3, 4, 5, 123456789⟩).nano ≠ 0 := by decide

/-- C2 amended: `Timestamp::now()` wraps the clock instant unchanged —
sub-second precision is retained, not truncated — and Timestamp equality
and ordering are defined on the full instant including the nanosecond
component (two instants equal up to seconds are ordered by nanoseconds). -/
theorem now_full_precision :
    (∀ c : Timestamp, Timestamp.now c = c) ∧
    (∀ a b : Timestamp, a.year = b.year → a.month = b.month → a.day = b.day →
      a.hour = b.hour → a.minute = b.minute → a.second = b.second →
      (Timestamp.le a b ↔ a.nano ≤ b.nano)) := by
  constructor
  · intro c; rfl
  · intro a b h1 h2 h3 h4 h5 h6
    unfold Timestamp.le
    omega

/-- Witness for C2 amended, at concrete instants differing only in
nanoseconds. -/
theorem now_full_precision_w :
    Timestamp.now ⟨2024, 1, 2, 3, 4, 5, 6⟩ = ⟨2024, 1, 2, 3, 4, 5, 6⟩ ∧
    (Timestamp.le ⟨2024, 1, 2, 3, 4, 5, 6⟩ ⟨2024, 1, 2, 3, 4, 5, 7⟩ ↔
      (6 : Nat) ≤ 7) :=
  ⟨now_full_precision.1 _,
    now_full_precision.2 ⟨2024, 1, 2, 3, 4, 5, 6⟩ ⟨2024, 1, 2, 3, 4, 5, 7⟩
      rfl rfl rfl rfl rfl rfl⟩

/-- Model of `Fulfillment` (`src/entry.rs` lines 100-108). -/
structure Fulfillment where
  range : Option Range
  index : Nat
  first_or_last : Bool
deriving DecidableEq, Repr

/-- Model of `Entry` (`src/entry.rs` lines 8-13): the path is the opaque
location handle, `fulfills` accumulates retention justifications. -/
structure Entry where
  path : String
  timestamp : Timestamp
  fulfills : List Fulfillment
deriving DecidableEq, Repr

/-- The order `Entry::cmp` implements (`src/entry.rs` lines 50-54): entries
compare by timestamp only. -/
def Entry.le (a b : Entry) : Prop := Timestamp.le a.timestamp b.timestamp

instance : DecidableRel Entry.le := fun a b => by
  unfold Entry.le; exact inferInstance

instance : IsTotal Entry Entry.le :=
  ⟨fun a b => Timestamp.le_total a.timestamp b.timestamp⟩

instance : IsTrans Entry Entry.le :=
  ⟨fun _ _ _ h1 h2 => Timestamp.le_trans h1 h2⟩

/-- Model of `RollingRange` (`src/config.rs` lines 100-106). -/
structure RollingRange where
  total : Nat
  allow_sparse : Bool
  include_first : Bool
  include_last : Bool
deriving DecidableEq, Repr

/-- Model of `Ranges` (`src/config.rs` lines 77-85). -/
structure Ranges where
  latest : Nat
  minutes : RollingRange
  hours : RollingRange
  days : RollingRange
  months : RollingRange
  years : RollingRange
deriving DecidableEq, Repr

/-- Model of `Ranges::iter_ranges` (`src/config.rs` lines 87-98). -/
def Ranges.iter_ranges (c : Ranges) : List (Range × RollingRange) :=
  [(Range.Minute, c.minutes), (Range.Hour, c.hours), (Range.Day, c.days),
    (Range.Month, c.months), (Range.Year, c.years)]

/-- The error values the engine can surface; models the `anyhow` errors
raised in `src/entry.rs` (timestamp conflict) and `src/mark.rs`
(`i32::try_from` failure on a shift amount; a bucket member timestamp not
found in the working map). -/
inductive EngineError where
  | timestampConflict (newPath oldPath : String)
  | shiftOverflow (amount : Nat)
  | notFound (ts : Timestamp)
deriving DecidableEq, Repr

/-- The scan-and-validate loop of `read_dir` (`src/entry.rs` lines 74-95):
entries are accepted in scan order, with fresh empty fulfillment sets; a
timestamp equal to one of an already accepted entry is a fatal conflict
(the Rust code looks the timestamp up in the map of entries inserted so
far). -/
def collectEntries : List (String × Timestamp) → List Entry →
    Except EngineError (List Entry)
  | [], acc => .ok acc
  | (p, ts) :: rest, acc =>
    match acc.find? (fun e => e.timestamp = ts) with
    | some existing => .error (.timestampConflict p existing.path)
    | none => collectEntries rest (acc ++ [(⟨p, ts, []⟩ : Entry)])

/-- Model of `read_dir` (`src/entry.rs` lines 74-98): collect the parsed
(path, timestamp) records of the scanned directory, reject duplicate
timestamps, and return the entries sorted ascending (by `Entry::cmp`, i.e.
by timestamp). -/
def read_dir (files : List (String × Timestamp)) :
    Except EngineError (List Entry) := do
  let es ← collectEntries files []
  .ok (es.insertionSort Entry.le)

/-- The latest-N marking pass of `read_backups` (`src/mark.rs` lines 10-22)
applied to the reversed (descending) entry list: the i-th entry taken (0
based, counting from `i0`) gets `Fulfillment { range: None, index: i + 1,
first_or_last: true }`; at most `k` entries are taken. -/
def markLatestRev : Nat → Nat → List Entry → List Entry
  | _, 0, es => es
  | _, _ + 1, [] => []
  | i, k + 1, e :: es =>
    { e with fulfills :=
        e.fulfills ++ [⟨none, i + 1, true⟩] } :: markLatestRev (i + 1) k es

/-- Latest-N marking on the ascending entry list: iterate in reverse
(`iter_mut().rev().take(latest).enumerate()`). -/
def markLatest (es : List Entry) (latest : Nat) : List Entry :=
  (markLatestRev 0 latest es.reverse).reverse

/-- The fixed-cadence bucket-key generation loop of `mark_range`
(`src/mark.rs` lines 52-59): for each `shift_amount` in `0..total`, convert
it to `i32` (an error as soon as it does not fit, i.e. at `2^31`) and push
`now.floor(range).shift(range, -shift_amount)`.  The first argument is the
next shift amount, the second the number of iterations left. -/
def genBucketKeysFrom (now : Timestamp) (r : Range) :
    Nat → Nat → Except EngineError (List Timestamp)
  | _, 0 => .ok []
  | k, n + 1 =>
    if k < 2 ^ 31 then
      match genBucketKeysFrom now r (k + 1) n with
      | .ok rest => .ok (((now.floor r).shift r (-(k : Int))) :: rest)
      | .error e => .error e
    else .error (.shiftOverflow k)

/-- Fixed-cadence bucket keys: the loop starting at shift amount 0. -/
def genBucketKeys (now : Timestamp) (r : Range) (total : Nat) :
    Except EngineError (List Timestamp) :=
  genBucketKeysFrom now r 0 total

/-- The sparse bucket-key selection of `mark_range` (`src/mark.rs` lines
43-51): the distinct floored timestamps present among the entries, sorted,
then taken from the most recent end (`.rev().take(total)`). -/
def sparseBucketKeys (es : List Entry) (r : Range) (total : Nat) :
    List Timestamp :=
  ((((es.map (fun e => e.timestamp.floor r)).dedup).insertionSort
    Timestamp.le).reverse).take total

/-- Bucket-key selection of `mark_range` (`src/mark.rs` lines 42-59). -/
def bucketKeys (es : List Entry) (now : Timestamp) (r : Range)
    (cfg : RollingRange) : Except EngineError (List Timestamp) :=
  if cfg.allow_sparse then .ok (sparseBucketKeys es r cfg.total)
  else genBucketKeys now r cfg.total

/-- Append a fulfillment to the entry holding the given raw timestamp
(`all_backups.get_mut(timestamp)` followed by `fulfills.push` in
`src/mark.rs` lines 70-77 and 82-89); the `else` branch models the
`anyhow::bail!("... not found in original list")` arms. -/
def pushFulfill (ts : Timestamp) (f : Fulfillment) :
    List Entry → Except EngineError (List Entry)
  | [] => .error (.notFound ts)
  | e :: es =>
    if e.timestamp = ts then .ok ({ e with fulfills := e.fulfills ++ [f] } :: es)
    else
      match pushFulfill ts f es with
      | .ok es2 => .ok (e :: es2)
      | .error err => .error err

/-- Tag the first member of a ranked bucket, when `include_first` is set
(`src/mark.rs` lines 68-79). -/
def tagFirst (r : Range) (cfg : RollingRange) (idx : Nat)
    (members : List Timestamp) (es : List Entry) :
    Except EngineError (List Entry) :=
  if cfg.include_first then
    match members.head? with
    | none => .ok es
    | some ts => pushFulfill ts ⟨some r, idx, true⟩ es
  else .ok es

/-- Tag the last member of a ranked bucket, when `include_last` is set
(`src/mark.rs` lines 80-91). -/
def tagLast (r : Range) (cfg : RollingRange) (idx : Nat)
    (members : List Timestamp) (es : List Entry) :
    Except EngineError (List Entry) :=
  if cfg.include_last then
    match members.getLast? with
    | none => .ok es
    | some ts => pushFulfill ts ⟨some r, idx, false⟩ es
  else .ok es

/-- The ranking-and-tagging loop of `mark_range` (`src/mark.rs` lines
67-92): buckets are visited in rank order (the enumeration index `idx`
counts from 1 = most recent), and within a bucket the first member is
tagged before the last. -/
def tagBuckets (r : Range) (cfg : RollingRange) :
    Nat → List (Timestamp × List Timestamp) → List Entry →
    Except EngineError (List Entry)
  | _, [], es => .ok es
  | idx, (_, members) :: rest, es => do
    let es1 ← tagFirst r cfg idx members es
    let es2 ← tagLast r cfg idx members es1
    tagBuckets r cfg (idx + 1) rest es2

/-- The `Buckets::sorted` view (`src/mark.rs` lines 62-65 and 112-125): the
distinct bucket keys in descending order, each paired with the ascending
list of raw timestamps of the entries whose floored timestamp equals that
key. -/
def rankedBuckets (es : List Entry) (r : Range) (keys : List Timestamp) :
    List (Timestamp × List Timestamp) :=
  ((keys.dedup.insertionSort Timestamp.le).reverse).map (fun b =>
    (b, (es.filterMap (fun e =>
      if e.timestamp.floor r = b then some e.timestamp else none)).insertionSort
      Timestamp.le))

/-- Model of `mark_range` (`src/mark.rs` lines 35-94). -/
def mark_range (es : List Entry) (now : Timestamp) (r : Range)
    (cfg : RollingRange) : Except EngineError (List Entry) := do
  let keys ← bucketKeys es now r cfg
  tagBuckets r cfg 1 (rankedBuckets es r keys) es

/-- Model of `read_backups` (`src/mark.rs` lines 8-33): collect and validate
the entries, mark the latest `latest` ones, run `mark_range` for each of
the five ranges in `iter_ranges` order, and return the entries sorted
ascending.  The clock reading consumed by `Timestamp::now()` is the
explicit `localNow` argument. -/
def read_backups (files : List (String × Timestamp)) (localNow : Timestamp)
    (cfg : Ranges) : Except EngineError (List Entry) := do
  let sorted ← read_dir files
  let marked := markLatest sorted cfg.latest
  let now := Timestamp.now localNow
  let final ← cfg.iter_ranges.foldlM
    (fun es rc => mark_range es now rc.1 rc.2) marked
  .ok (final.insertionSort Entry.le)

theorem genBucketKeysFrom_ok (now : Timestamp) (r : Range) :
    ∀ (n k : Nat), k + n ≤ 2 ^ 31 →
      genBucketKeysFrom now r k n =
        .ok ((List.range n).map
          (fun i => (now.floor r).shift r (-((k + i : Nat) : Int)))) := by
  intro n
  induction n with
  | zero => intro k _; simp [genBucketKeysFrom]
  | succ n ih =>
    intro k hk
    have hlt : k < 2 ^ 31 := by omega
    have hrec := ih (k + 1) (by omega)
    simp only [genBucketKeysFrom, if_pos hlt, hrec]
    rw [List.range_succ_eq_map]
    simp only [List.map_cons, List.map_map]
    refine congrArg Except.ok (congrArg₂ List.cons ?_ ?_)
    · norm_num
    · apply List.map_congr_left
      intro i _
      simp only [Function.comp_apply]
      congr 1
      omega

theorem genBucketKeysFrom_overflow (now : Timestamp) (r : Range) :
    ∀ (n k : Nat), k ≤ 2 ^ 31 → 2 ^ 31 < k + n →
      genBucketKeysFrom now r k n = .error (.shiftOverflow (2 ^ 31)) := by
  intro n
  induction n with
  | zero => intro k h1 h2; omega
  | succ n ih =>
    intro k h1 h2
    by_cases hlt : k < 2 ^ 31
    · have hrec := ih (k + 1) (by omega) (by omega)
      simp [genBucketKeysFrom, if_pos hlt, hrec]
      omega
    · have hk : k = 2 ^ 31 := by omega
      simp [genBucketKeysFrom, if_neg hlt, hk]

/-- C4 counterexample: with `allow_sparse = false` and
`total = 2^31 + 1`, `mark_range` does not generate `total` bucket keys —
the `i32::try_from(shift_amount)` conversion fails at shift amount `2^31`
and `mark_range` returns an error. -/
theorem fixed_cadence_overflow_cex :
    mark_range [] sampleT Range.Minute ⟨2 ^ 31 + 1, false, true, true⟩
      = .error (.shiftOverflow (2 ^ 31)) := by
  have h := genBucketKeysFrom_overflow sampleT Range.Minute (2 ^ 31 + 1) 0
    (by omega) (by omega)
  norm_num at h ⊢
  simp only [mark_range, bucketKeys, genBucketKeys, Bool.false_eq_true,
    if_false, h]
  rfl

/-- C4 amended: for every current time, every Range and every policy with
`allow_sparse = false` whose `total` is at most `2^31` (so that every shift
amount fits in an `i32`), the bucket-key selection of `mark_range`
generates exactly `total` keys, namely `now.floor(range).shift(range, -k)`
for `k = 0, ..., total - 1`, regardless of the entries (including none);
for larger `total` the `i32` conversion fails and `mark_range` errors
instead. -/
theorem fixed_cadence_bucket_count (es : List Entry) (now : Timestamp)
    (r : Range) (cfg : RollingRange) (h1 : cfg.allow_sparse = false)
    (h2 : cfg.total ≤ 2 ^ 31) :
    bucketKeys es now r cfg =
      .ok ((List.range cfg.total).map
        (fun k : Nat => (now.floor r).shift r (-(k : Int)))) ∧
    ((List.range cfg.total).map
      (fun k : Nat => (now.floor r).shift r (-(k : Int)))).length = cfg.total := by
  have h := genBucketKeysFrom_ok now r cfg.total 0 (by omega)
  simp only [Nat.zero_add] at h
  refine ⟨?_, by simp⟩
  simp only [bucketKeys, h1, Bool.false_eq_true, if_false, genBucketKeys, h]

/-- Witness for C4 amended at `total = 3`, range Minute, the sample clock,
and no entries. -/
theorem fixed_cadence_bucket_count_w :
    bucketKeys [] sampleT Range.Minute ⟨3, false, true, true⟩ =
      .ok ((List.range 3).map
        (fun k : Nat => (sampleT.floor Range.Minute).shift Range.Minute (-(k : Int)))) ∧
    ((List.range 3).map
      (fun k : Nat => (sampleT.floor Range.Minute).shift Range.Minute
        (-(k : Int)))).length = 3 :=
  fixed_cadence_bucket_count [] sampleT Range.Minute ⟨3, false, true, true⟩
    rfl (by norm_num)

theorem sparseBucketKeys_split (es : List Entry) (r : Range) (total : Nat) :
    ∃ rest, (((es.map (fun e => e.timestamp.floor r)).dedup).insertionSort
        Timestamp.le).reverse = sparseBucketKeys es r total ++ rest := by
  exact ⟨_, (List.take_append_drop total _).symm⟩

theorem sparse_reverse_nodup (es : List Entry) (r : Range) :
    ((((es.map (fun e => e.timestamp.floor r)).dedup).insertionSort
      Timestamp.le).reverse).Nodup := by
  rw [List.nodup_reverse]
  exact (List.perm_insertionSort Timestamp.le _).nodup_iff.mpr
    (List.nodup_dedup _)

theorem sparse_reverse_pairwise (es : List Entry) (r : Range) :
    ((((es.map (fun e => e.timestamp.floor r)).dedup).insertionSort
      Timestamp.le).reverse).Pairwise (fun a b => Timestamp.le b a) := by
  rw [List.pairwise_reverse]
  exact List.sorted_insertionSort Timestamp.le _

/-- C5: with `allow_sparse = true`, `mark_range` selects as bucket keys
exactly the `min(total, number of distinct floored timestamps)` most recent
distinct floored entry timestamps: the selection has that length, has no
repeats, contains only floored entry timestamps, and strictly dominates
every distinct floored timestamp it leaves out. -/
theorem sparse_bucket_bound (es : List Entry) (now : Timestamp) (r : Range)
    (cfg : RollingRange) (h : cfg.allow_sparse = true) :
    bucketKeys es now r cfg = .ok (sparseBucketKeys es r cfg.total) ∧
    (sparseBucketKeys es r cfg.total).length =
      min cfg.total ((es.map (fun e => e.timestamp.floor r)).dedup).length ∧
    (sparseBucketKeys es r cfg.total).Nodup ∧
    (∀ x ∈ sparseBucketKeys es r cfg.total,
      x ∈ es.map (fun e => e.timestamp.floor r)) ∧
    (∀ x ∈ (es.map (fun e => e.timestamp.floor r)).dedup,
      x ∉ sparseBucketKeys es r cfg.total →
      ∀ k ∈ sparseBucketKeys es r cfg.total, Timestamp.lt x k) := by
  obtain ⟨rest, hsplit⟩ := sparseBucketKeys_split es r cfg.total
  have hnd := sparse_reverse_nodup es r
  have hpw := sparse_reverse_pairwise es r
  rw [hsplit] at hnd hpw
  refine ⟨by simp [bucketKeys, h], ?_, ?_, ?_, ?_⟩
  · simp [sparseBucketKeys]
  · exact (List.nodup_append.mp hnd).1
  · intro x hx
    have : x ∈ (es.map (fun e => e.timestamp.floor r)).dedup := by
      have h1 : x ∈ (((es.map (fun e => e.timestamp.floor r)).dedup).insertionSort
          Timestamp.le).reverse := by
        rw [hsplit]
        exact List.mem_append_left _ hx
      rw [List.mem_reverse, List.mem_insertionSort] at h1
      exact h1
    exact List.mem_dedup.mp this
  · intro x hx hnotin k hk
    have hxrev : x ∈ (((es.map (fun e => e.timestamp.floor r)).dedup).insertionSort
        Timestamp.le).reverse := by
      rw [List.mem_reverse, List.mem_insertionSort]
      exact hx
    rw [hsplit, List.mem_append] at hxrev
    have hxrest : x ∈ rest := hxrev.resolve_left hnotin
    have hle : Timestamp.le x k :=
      (List.pairwise_append.mp hpw).2.2 k hk x hxrest
    have hne : x ≠ k := by
      intro he
      exact (List.disjoint_of_nodup_append hnd) hk (he ▸ hxrest)
    exact Timestamp.lt_iff_le_ne.mpr ⟨hle, hne⟩

/-- Witness for C5: three entries spanning two distinct days, day range,
`total = 5` — the selection is the two distinct day floors. -/
theorem sparse_bucket_bound_w :
    bucketKeys [⟨"a", ⟨2024, 5, 9, 3, 0, 0, 0⟩, []⟩,
        ⟨"b", ⟨2024, 5, 9, 4, 0, 0, 0⟩, []⟩,
        ⟨"c", ⟨2024, 5, 10, 5, 0, 0, 0⟩, []⟩] sampleT Range.Day
        ⟨5, true, true, true⟩ =
      .ok (sparseBucketKeys [⟨"a", ⟨2024, 5, 9, 3, 0, 0, 0⟩, []⟩,
        ⟨"b", ⟨2024, 5, 9, 4, 0, 0, 0⟩, []⟩,
        ⟨"c", ⟨2024, 5, 10, 5, 0, 0, 0⟩, []⟩] Range.Day 5) ∧
    (sparseBucketKeys [⟨"a", ⟨2024, 5, 9, 3, 0, 0, 0⟩, []⟩,
        ⟨"b", ⟨2024, 5, 9, 4, 0, 0, 0⟩, []⟩,
        ⟨"c", ⟨2024, 5, 10, 5, 0, 0, 0⟩, []⟩] Range.Day 5).length = 2 := by
  have h := sparse_bucket_bound [⟨"a", ⟨2024, 5, 9, 3, 0, 0, 0⟩, []⟩,
    ⟨"b", ⟨2024, 5, 9, 4, 0, 0, 0⟩, []⟩,
    ⟨"c", ⟨2024, 5, 10, 5, 0, 0, 0⟩, []⟩] sampleT Range.Day
    ⟨5, true, true, true⟩ rfl
  exact ⟨h.1, by decide⟩

theorem bindOk {α β ε : Type} (a : α) (f : α → Except ε β) :
    (Except.ok a >>= f) = f a := rfl

theorem bindErr {α β ε : Type} (e : ε) (f : α → Except ε β) :
    ((Except.error e : Except ε α) >>= f) = Except.error e := rfl

theorem pushFulfill_ok_of_mem {ts : Timestamp} {f : Fulfillment} :
    ∀ {es : List Entry}, ts ∈ es.map Entry.timestamp →
      ∃ es2, pushFulfill ts f es = .ok es2
  | [], h => by simp at h
  | e :: es, h => by
    by_cases he : e.timestamp = ts
    · refine ⟨{ e with fulfills := e.fulfills ++ [f] } :: es, ?_⟩
      simp [pushFulfill, he]
    · have hmem : ts ∈ es.map Entry.timestamp := by
        simp at h
        rcases h with h | h
        · exact absurd h.symm he
        · simpa using h
      obtain ⟨es2, h2⟩ := pushFulfill_ok_of_mem (f := f) hmem
      exact ⟨e :: es2, by simp [pushFulfill, he, h2]⟩

theorem pushFulfill_timestamps {ts : Timestamp} {f : Fulfillment} :
    ∀ {es es2 : List Entry}, pushFulfill ts f es = .ok es2 →
      es2.map Entry.timestamp = es.map Entry.timestamp
  | [], _, h => by simp [pushFulfill] at h
  | e :: es, es2, h => by
    by_cases he : e.timestamp = ts
    · simp [pushFulfill, he] at h
      subst h
      simp [he]
    · simp only [pushFulfill, if_neg he] at h
      cases h2 : pushFulfill ts f es with
      | ok es3 =>
        rw [h2] at h
        simp at h
        subst h
        simp [pushFulfill_timestamps h2]
      | error err => rw [h2] at h; simp at h

theorem tagFirst_ok (r : Range) (cfg : RollingRange) (idx : Nat)
    (members : List Timestamp) (es : List Entry)
    (h : ∀ m ∈ members, m ∈ es.map Entry.timestamp) :
    ∃ es2, tagFirst r cfg idx members es = .ok es2 ∧
      es2.map Entry.timestamp = es.map Entry.timestamp := by
  unfold tagFirst
  by_cases hf : cfg.include_first
  · simp only [hf, if_true]
    cases hm : members.head? with
    | none => exact ⟨es, rfl, rfl⟩
    | some ts =>
      have := h ts (List.mem_of_mem_head? (by rw [hm]; rfl))
      obtain ⟨es2, h2⟩ := pushFulfill_ok_of_mem (f := ⟨some r, idx, true⟩) this
      exact ⟨es2, h2, pushFulfill_timestamps h2⟩
  · simp only [hf, if_false]
    exact ⟨es, rfl, rfl⟩

theorem tagLast_ok (r : Range) (cfg : RollingRange) (idx : Nat)
    (members : List Timestamp) (es : List Entry)
    (h : ∀ m ∈ members, m ∈ es.map Entry.timestamp) :
    ∃ es2, tagLast r cfg idx members es = .ok es2 ∧
      es2.map Entry.timestamp = es.map Entry.timestamp := by
  unfold tagLast
  by_cases hf : cfg.include_last
  · simp only [hf, if_true]
    cases hm : members.getLast? with
    | none => exact ⟨es, rfl, rfl⟩
    | some ts =>
      have := h ts (List.mem_of_getLast?_eq_some hm)
      obtain ⟨es2, h2⟩ := pushFulfill_ok_of_mem (f := ⟨some r, idx, false⟩) this
      exact ⟨es2, h2, pushFulfill_timestamps h2⟩
  · simp only [hf, if_false]
    exact ⟨es, rfl, rfl⟩

theorem tagBuckets_ok (r : Range) (cfg : RollingRange) :
    ∀ (buckets : List (Timestamp × List Timestamp)) (idx : Nat)
      (es : List Entry),
      (∀ b ∈ buckets, ∀ m ∈ b.2, m ∈ es.map Entry.timestamp) →
      ∃ es2, tagBuckets r cfg idx buckets es = .ok es2 ∧
        es2.map Entry.timestamp = es.map Entry.timestamp
  | [], idx, es, _ => ⟨es, rfl, rfl⟩
  | (bk, members) :: rest, idx, es, h => by
    obtain ⟨es1, h1, ht1⟩ := tagFirst_ok r cfg idx members es
      (fun m hm => h (bk, members) (by simp) m hm)
    obtain ⟨es2, h2, ht2⟩ := tagLast_ok r cfg idx members es1
      (fun m hm => ht1 ▸ h (bk, members) (by simp) m hm)
    obtain ⟨es3, h3, ht3⟩ := tagBuckets_ok r cfg rest (idx + 1) es2
      (fun b hb m hm => (ht2.trans ht1) ▸ h b (by simp [hb]) m hm)
    refine ⟨es3, ?_, ht3.trans (ht2.trans ht1)⟩
    show (tagFirst r cfg idx members es >>= fun es1 =>
      tagLast r cfg idx members es1 >>= fun es2 =>
      tagBuckets r cfg (idx + 1) rest es2) = .ok es3
    rw [h1, bindOk, h2, bindOk, h3]

theorem rankedBuckets_members_mem (es : List Entry) (r : Range)
    (keys : List Timestamp) :
    ∀ b ∈ rankedBuckets es r keys, ∀ m ∈ b.2, m ∈ es.map Entry.timestamp := by
  intro b hb m hm
  unfold rankedBuckets at hb
  rw [List.mem_map] at hb
  obtain ⟨bk, _, hbk⟩ := hb
  subst hbk
  simp only [List.mem_insertionSort, List.mem_filterMap] at hm
  obtain ⟨e, he, hfe⟩ := hm
  rw [List.mem_map]
  refine ⟨e, he, ?_⟩
  by_cases hc : e.timestamp.floor r = bk
  · simp [hc] at hfe
    exact hfe
  · simp [hc] at hfe

theorem genBucketKeysFrom_error_shape (now : Timestamp) (r : Range) :
    ∀ (n k : Nat) (e : EngineError),
      genBucketKeysFrom now r k n = .error e → ∃ a, e = .shiftOverflow a
  | 0, k, e, h => by simp [genBucketKeysFrom] at h
  | n + 1, k, e, h => by
    by_cases hlt : k < 2 ^ 31
    · simp only [genBucketKeysFrom, if_pos hlt] at h
      cases h2 : genBucketKeysFrom now r (k + 1) n with
      | ok rest => rw [h2] at h; simp at h
      | error e2 =>
        rw [h2] at h
        simp at h
        subst h
        exact genBucketKeysFrom_error_shape now r n (k + 1) e2 h2
    · simp only [genBucketKeysFrom, if_neg hlt] at h
      simp at h
      exact ⟨k, h.symm⟩

/-- C10: the "not found in original list" error branches of `mark_range`
are unreachable — bucket members are only ever drawn from the entries'
own timestamps and every tagging lookup succeeds — so `mark_range`
never returns that error (its only possible error is the shift-amount
conversion failure). -/
theorem mark_range_no_notFound (es : List Entry) (now : Timestamp)
    (r : Range) (cfg : RollingRange) (ts : Timestamp) :
    mark_range es now r cfg ≠ .error (.notFound ts) := by
  unfold mark_range
  cases hk : bucketKeys es now r cfg with
  | ok keys =>
    obtain ⟨es2, h2, _⟩ := tagBuckets_ok r cfg (rankedBuckets es r keys) 1 es
      (rankedBuckets_members_mem es r keys)
    rw [show (do
        let keys ← Except.ok keys
        tagBuckets r cfg 1 (rankedBuckets es r keys) es) =
      tagBuckets r cfg 1 (rankedBuckets es r keys) es from rfl, h2]
    simp
  | error e =>
    have : ∃ a, e = EngineError.shiftOverflow a := by
      unfold bucketKeys at hk
      by_cases hs : cfg.allow_sparse
      · simp [hs] at hk
      · simp only [hs, Bool.false_eq_true, if_false, genBucketKeys] at hk
        exact genBucketKeysFrom_error_shape now r cfg.total 0 e hk
    obtain ⟨a, ha⟩ := this
    subst ha
    rw [show (do
        let keys ← (Except.error (EngineError.shiftOverflow a) :
          Except EngineError (List Timestamp))
        tagBuckets r cfg 1 (rankedBuckets es r keys) es) =
      Except.error (EngineError.shiftOverflow a) from rfl]
    simp

/-- Witness for C10 at a concrete input. -/
theorem mark_range_no_notFound_w :
    mark_range [⟨"a", ⟨2024, 5, 9, 3, 0, 0, 0⟩, []⟩] sampleT Range.Day
        ⟨2, true, true, true⟩ ≠
      .error (.notFound ⟨2024, 5, 9, 3, 0, 0, 0⟩) :=
  mark_range_no_notFound [⟨"a", ⟨2024, 5, 9, 3, 0, 0, 0⟩, []⟩] sampleT
    Range.Day ⟨2, true, true, true⟩ ⟨2024, 5, 9, 3, 0, 0, 0⟩

theorem collectEntries_conflict :
    ∀ (files : List (String × Timestamp)) (acc : List Entry),
      (acc.map Entry.timestamp).Nodup →
      ¬ (acc.map Entry.timestamp ++ files.map Prod.snd).Nodup →
      ∃ a b, collectEntries files acc = .error (.timestampConflict a b)
  | [], acc, hnd, hdup => by
    simp at hdup
    exact absurd hnd hdup
  | (p, ts) :: rest, acc, hnd, hdup => by
    cases hfind : acc.find? (fun e => e.timestamp = ts) with
    | some ex =>
      exact ⟨p, ex.path, by simp [collectEntries, hfind]⟩
    | none =>
      have hnotin : ts ∉ acc.map Entry.timestamp := by
        rw [List.find?_eq_none] at hfind
        simp only [List.mem_map]
        rintro ⟨e, he, hts⟩
        exact absurd (by simpa using hts) (by simpa using hfind e he)
      have hnd2 : ((acc ++ [(⟨p, ts, []⟩ : Entry)]).map Entry.timestamp).Nodup := by
        simp only [List.map_append, List.map_cons, List.map_nil]
        rw [List.nodup_append]
        exact ⟨hnd, List.nodup_singleton ts, by simpa using hnotin⟩
      have hdup2 : ¬ (((acc ++ [(⟨p, ts, []⟩ : Entry)]).map Entry.timestamp)
          ++ rest.map Prod.snd).Nodup := by
        simp only [List.map_append, List.map_cons, List.map_nil,
          List.append_assoc, List.singleton_append]
        simpa using hdup
      obtain ⟨a, b, hab⟩ := collectEntries_conflict rest
        (acc ++ [(⟨p, ts, []⟩ : Entry)]) hnd2 hdup2
      exact ⟨a, b, by simp [collectEntries, hfind, hab]⟩

/-- C8: two distinct files (different paths) carrying the same timestamp
make `read_dir` — and hence `read_backups` — fail with the timestamp
conflict error; the collection is never silently merged. -/
theorem duplicate_timestamp_rejected (files : List (String × Timestamp))
    (localNow : Timestamp) (cfg : Ranges) (p1 p2 : String) (t : Timestamp)
    (h1 : (p1, t) ∈ files) (h2 : (p2, t) ∈ files) (hp : p1 ≠ p2) :
    (∃ a b, read_dir files = .error (.timestampConflict a b)) ∧
    (∃ a b, read_backups files localNow cfg =
      .error (.timestampConflict a b)) := by
  have hdup : ¬ (files.map Prod.snd).Nodup := by
    intro hnd
    have := List.inj_on_of_nodup_map hnd h1 h2 rfl
    exact hp (congrArg Prod.fst this)
  obtain ⟨a, b, hab⟩ := collectEntries_conflict files [] (by simp)
    (by simpa using hdup)
  have hrd : read_dir files = .error (.timestampConflict a b) := by
    unfold read_dir
    rw [show (do
        let es ← collectEntries files []
        (Except.ok (es.insertionSort Entry.le) :
          Except EngineError (List Entry))) =
      collectEntries files [] >>= (fun es =>
        Except.ok (es.insertionSort Entry.le)) from rfl]
    rw [hab, bindErr]
  refine ⟨⟨a, b, hrd⟩, ⟨a, b, ?_⟩⟩
  unfold read_backups
  rw [show (do
      let sorted ← read_dir files
      let marked := markLatest sorted cfg.latest
      let now := Timestamp.now localNow
      let final ← cfg.iter_ranges.foldlM
        (fun es rc => mark_range es now rc.1 rc.2) marked
      (Except.ok (final.insertionSort Entry.le) :
        Except EngineError (List Entry))) =
    read_dir files >>= (fun sorted =>
      (cfg.iter_ranges.foldlM (fun es rc =>
        mark_range es (Timestamp.now localNow) rc.1 rc.2)
        (markLatest sorted cfg.latest)) >>= (fun final =>
          Except.ok (final.insertionSort Entry.le))) from rfl]
  rw [hrd, bindErr]

/-- Witness for C8 at a concrete two-file conflict. -/
theorem duplicate_timestamp_rejected_w :
    (∃ a b, read_dir [("x", sampleT), ("y", sampleT)] =
      .error (.timestampConflict a b)) ∧
    (∃ a b, read_backups [("x", sampleT), ("y", sampleT)] sampleT
        ⟨1, ⟨0, true, true, true⟩, ⟨0, true, true, true⟩,
          ⟨0, true, true, true⟩, ⟨0, true, true, true⟩,
          ⟨0, true, true, true⟩⟩ =
      .error (.timestampConflict a b)) :=
  duplicate_timestamp_rejected [("x", sampleT), ("y", sampleT)] sampleT
    ⟨1, ⟨0, true, true, true⟩, ⟨0, true, true, true⟩, ⟨0, true, true, true⟩,
      ⟨0, true, true, true⟩, ⟨0, true, true, true⟩⟩ "x" "y" sampleT
    (by simp) (by simp) (by simp)

/-- The identity of an entry as supplied by the caller: location and
timestamp (everything but the fulfillment set). -/
def entryKey (e : Entry) : String × Timestamp := (e.path, e.timestamp)

theorem collectEntries_ok :
    ∀ (files : List (String × Timestamp)) (acc out : List Entry),
      collectEntries files acc = .ok out →
      out = acc ++ files.map (fun pt => ⟨pt.1, pt.2, []⟩)
  | [], acc, out, h => by
    simp [collectEntries] at h
    simp [h.symm]
  | (p, ts) :: rest, acc, out, h => by
    cases hfind : acc.find? (fun e => e.timestamp = ts) with
    | some ex => simp [collectEntries, hfind] at h
    | none =>
      simp only [collectEntries, hfind] at h
      have := collectEntries_ok rest (acc ++ [(⟨p, ts, []⟩ : Entry)]) out h
      simp [this, List.append_assoc]

theorem markLatestRev_key :
    ∀ (i k : Nat) (es : List Entry),
      (markLatestRev i k es).map entryKey = es.map entryKey
  | _, 0, _ => by rw [markLatestRev]
  | _, _ + 1, [] => by rw [markLatestRev]
  | i, k + 1, e :: es => by
    rw [markLatestRev]
    simp [entryKey, markLatestRev_key (i + 1) k es]

theorem markLatest_key (es : List Entry) (latest : Nat) :
    (markLatest es latest).map entryKey = es.map entryKey := by
  unfold markLatest
  rw [List.map_reverse, markLatestRev_key, List.map_reverse,
    List.reverse_reverse]

theorem pushFulfill_key {ts : Timestamp} {f : Fulfillment} :
    ∀ {es es2 : List Entry}, pushFulfill ts f es = .ok es2 →
      es2.map entryKey = es.map entryKey
  | [], _, h => by simp [pushFulfill] at h
  | e :: es, es2, h => by
    by_cases he : e.timestamp = ts
    · simp [pushFulfill, he] at h
      subst h
      simp [entryKey, he]
    · simp only [pushFulfill, if_neg he] at h
      cases h2 : pushFulfill ts f es with
      | ok es3 =>
        rw [h2] at h
        simp at h
        subst h
        simp [entryKey, pushFulfill_key h2]
      | error err => rw [h2] at h; simp at h

theorem tagFirst_key {r : Range} {cfg : RollingRange} {idx : Nat}
    {members : List Timestamp} {es es2 : List Entry}
    (h : tagFirst r cfg idx members es = .ok es2) :
    es2.map entryKey = es.map entryKey := by
  unfold tagFirst at h
  by_cases hf : cfg.include_first
  · simp only [hf, if_true] at h
    cases hm : members.head? with
    | none => rw [hm] at h; simp at h; simp [h.symm]
    | some ts => rw [hm] at h; exact pushFulfill_key h
  · simp only [hf, if_false] at h
    simp at h
    simp [h.symm]

theorem tagLast_key {r : Range} {cfg : RollingRange} {idx : Nat}
    {members : List Timestamp} {es es2 : List Entry}
    (h : tagLast r cfg idx members es = .ok es2) :
    es2.map entryKey = es.map entryKey := by
  unfold tagLast at h
  by_cases hf : cfg.include_last
  · simp only [hf, if_true] at h
    cases hm : members.getLast? with
    | none => rw [hm] at h; simp at h; simp [h.symm]
    | some ts => rw [hm] at h; exact pushFulfill_key h
  · simp only [hf, if_false] at h
    simp at h
    simp [h.symm]

theorem tagBuckets_key {r : Range} {cfg : RollingRange} :
    ∀ {buckets : List (Timestamp × List Timestamp)} {idx : Nat}
      {es es2 : List Entry}, tagBuckets r cfg idx buckets es = .ok es2 →
      es2.map entryKey = es.map entryKey
  | [], _, es, es2, h => by
    simp [tagBuckets] at h
    simp [h.symm]
  | (bk, members) :: rest, idx, es, es2, h => by
    rw [show tagBuckets r cfg idx ((bk, members) :: rest) es =
      (tagFirst r cfg idx members es >>= fun es1 =>
        tagLast r cfg idx members es1 >>= fun esb =>
        tagBuckets r cfg (idx + 1) rest esb) from rfl] at h
    cases h1 : tagFirst r cfg idx members es with
    | error e => rw [h1, bindErr] at h; simp at h
    | ok es1 =>
      rw [h1, bindOk] at h
      cases h2 : tagLast r cfg idx members es1 with
      | error e => rw [h2, bindErr] at h; simp at h
      | ok esb =>
        rw [h2, bindOk] at h
        exact (tagBuckets_key h).trans ((tagLast_key h2).trans
          (tagFirst_key h1))

theorem mark_range_key {es : List Entry} {now : Timestamp} {r : Range}
    {cfg : RollingRange} {out : List Entry}
    (h : mark_range es now r cfg = .ok out) :
    out.map entryKey = es.map entryKey := by
  unfold mark_range at h
  cases hk : bucketKeys es now r cfg with
  | error e =>
    rw [show (do
        let keys ← bucketKeys es now r cfg
        tagBuckets r cfg 1 (rankedBuckets es r keys) es) =
      bucketKeys es now r cfg >>= (fun keys =>
        tagBuckets r cfg 1 (rankedBuckets es r keys) es) from rfl,
      hk, bindErr] at h
    simp at h
  | ok keys =>
    rw [show (do
        let keys ← bucketKeys es now r cfg
        tagBuckets r cfg 1 (rankedBuckets es r keys) es) =
      bucketKeys es now r cfg >>= (fun keys =>
        tagBuckets r cfg 1 (rankedBuckets es r keys) es) from rfl,
      hk, bindOk] at h
    exact tagBuckets_key h

theorem foldlM_mark_range_key (now : Timestamp) :
    ∀ (l : List (Range × RollingRange)) (es out : List Entry),
      l.foldlM (fun es rc => mark_range es now rc.1 rc.2) es = .ok out →
      out.map entryKey = es.map entryKey
  | [], es, out, h => by
    simp only [List.foldlM] at h
    rw [show (pure es : Except EngineError (List Entry)) = Except.ok es
      from rfl] at h
    simp only [Except.ok.injEq] at h
    rw [h]
  | rc :: rest, es, out, h => by
    rw [List.foldlM_cons] at h
    cases h1 : mark_range es now rc.1 rc.2 with
    | error e => rw [h1, bindErr] at h; simp at h
    | ok es1 =>
      rw [h1, bindOk] at h
      exact (foldlM_mark_range_key now rest es1 out h).trans
        (mark_range_key h1)

/-- C9: whenever `read_backups` succeeds it returns exactly the supplied
entries — the multiset of (location, timestamp) pairs of the output is a
permutation of the input files — as a sequence sorted ascending by
timestamp (`Entry::cmp`). -/
theorem read_backups_sorted_same_entries (files : List (String × Timestamp))
    (localNow : Timestamp) (cfg : Ranges) (out : List Entry)
    (h : read_backups files localNow cfg = .ok out) :
    List.Sorted Entry.le out ∧ (out.map entryKey).Perm files := by
  unfold read_backups at h
  rw [show (do
      let sorted ← read_dir files
      let marked := markLatest sorted cfg.latest
      let now := Timestamp.now localNow
      let final ← cfg.iter_ranges.foldlM
        (fun es rc => mark_range es now rc.1 rc.2) marked
      (Except.ok (final.insertionSort Entry.le) :
        Except EngineError (List Entry))) =
    read_dir files >>= (fun sorted =>
      cfg.iter_ranges.foldlM (fun es rc =>
        mark_range es (Timestamp.now localNow) rc.1 rc.2)
        (markLatest sorted cfg.latest) >>= (fun final =>
          Except.ok (final.insertionSort Entry.le))) from rfl] at h
  cases hrd : read_dir files with
  | error e => rw [hrd, bindErr] at h; simp at h
  | ok sorted =>
    rw [hrd, bindOk] at h
    cases hfold : cfg.iter_ranges.foldlM (fun es rc =>
        mark_range es (Timestamp.now localNow) rc.1 rc.2)
        (markLatest sorted cfg.latest) with
    | error e => rw [hfold, bindErr] at h; simp at h
    | ok final =>
      rw [hfold, bindOk] at h
      simp only [Except.ok.injEq] at h
      subst h
      constructor
      · exact List.sorted_insertionSort Entry.le final
      · have hperm1 : ((final.insertionSort Entry.le).map entryKey).Perm
            (final.map entryKey) :=
          (List.perm_insertionSort Entry.le final).map entryKey
      -- the marking passes preserve entry keys exactly
        have hkey : final.map entryKey =
            (markLatest sorted cfg.latest).map entryKey :=
          foldlM_mark_range_key (Timestamp.now localNow) cfg.iter_ranges _ _
            hfold
        rw [markLatest_key] at hkey
      -- read_dir returns a sorted permutation of the input records
        unfold read_dir at hrd
        rw [show (do
            let es ← collectEntries files []
            (Except.ok (es.insertionSort Entry.le) :
              Except EngineError (List Entry))) =
          collectEntries files [] >>= (fun es =>
            Except.ok (es.insertionSort Entry.le)) from rfl] at hrd
        cases hce : collectEntries files [] with
        | error e => rw [hce, bindErr] at hrd; simp at hrd
        | ok es0 =>
          rw [hce, bindOk] at hrd
          simp only [Except.ok.injEq] at hrd
          have hes0 : es0 = files.map (fun pt => ⟨pt.1, pt.2, []⟩) :=
            collectEntries_ok files [] es0 hce
          have hperm2 : (sorted.map entryKey).Perm files := by
            rw [← hrd]
            have : ((es0.insertionSort Entry.le).map entryKey).Perm
                (es0.map entryKey) :=
              (List.perm_insertionSort Entry.le es0).map entryKey
            refine this.trans ?_
            rw [hes0, List.map_map]
            rw [show (entryKey ∘ fun pt : String × Timestamp =>
              ({ path := pt.1, timestamp := pt.2, fulfills := [] } : Entry))
              = id from funext fun pt => rfl]
            rw [List.map_id]
          exact hperm1.trans (by rw [hkey]; exact hperm2)

/-- Witness for C9 at a concrete two-file input. -/
theorem read_backups_sorted_same_entries_w :
    List.Sorted Entry.le
      [⟨"a", ⟨2024, 5, 9, 12, 0, 0, 0⟩, []⟩,
       ⟨"b", ⟨2024, 5, 10, 12, 0, 0, 0⟩,
         [⟨none, 1, true⟩, ⟨some Range.Day, 1, true⟩,
          ⟨some Range.Day, 1, false⟩]⟩] ∧
    (([⟨"a", ⟨2024, 5, 9, 12, 0, 0, 0⟩, []⟩,
       ⟨"b", ⟨2024, 5, 10, 12, 0, 0, 0⟩,
         [⟨none, 1, true⟩, ⟨some Range.Day, 1, true⟩,
          ⟨some Range.Day, 1, false⟩]⟩] : List Entry).map entryKey).Perm
      [("b", ⟨2024, 5, 10, 12, 0, 0, 0⟩), ("a", ⟨2024, 5, 9, 12, 0, 0, 0⟩)] :=
  read_backups_sorted_same_entries
    [("b", ⟨2024, 5, 10, 12, 0, 0, 0⟩), ("a", ⟨2024, 5, 9, 12, 0, 0, 0⟩)]
    sampleT
    ⟨1, ⟨0, true, true, true⟩, ⟨0, true, true, true⟩, ⟨1, true, true, true⟩,
      ⟨0, true, true, true⟩, ⟨0, true, true, true⟩⟩
    [⟨"a", ⟨2024, 5, 9, 12, 0, 0, 0⟩, []⟩,
     ⟨"b", ⟨2024, 5, 10, 12, 0, 0, 0⟩,
       [⟨none, 1, true⟩, ⟨some Range.Day, 1, true⟩,
        ⟨some Range.Day, 1, false⟩]⟩]
    (by rfl)

/-- The timestamp of an entry together with its latest-rule fulfillments
(`range = None`); the per-range marking passes never touch this. -/
def tsNoneKey (e : Entry) : Timestamp × List Fulfillment :=
  (e.timestamp, e.fulfills.filter (fun f => f.range.isNone))

theorem tsNoneKey_push_some (e : Entry) (r : Range) (idx : Nat) (fl : Bool) :
    tsNoneKey { e with fulfills := e.fulfills ++ [⟨some r, idx, fl⟩] } =
      tsNoneKey e := by
  simp [tsNoneKey, List.filter_append]

theorem pushFulfill_tsNoneKey {ts : Timestamp} {r : Range} {idx : Nat}
    {fl : Bool} :
    ∀ {es es2 : List Entry},
      pushFulfill ts ⟨some r, idx, fl⟩ es = .ok es2 →
      es2.map tsNoneKey = es.map tsNoneKey
  | [], _, h => by simp [pushFulfill] at h
  | e :: es, es2, h => by
    by_cases he : e.timestamp = ts
    · simp [pushFulfill, he] at h
      subst h
      simp [tsNoneKey, List.filter_append, he]
    · simp only [pushFulfill, if_neg he] at h
      cases h2 : pushFulfill ts (⟨some r, idx, fl⟩ : Fulfillment) es with
      | ok es3 =>
        rw [h2] at h
        simp at h
        subst h
        simp [pushFulfill_tsNoneKey h2]
      | error err => rw [h2] at h; simp at h

theorem tagFirst_tsNoneKey {r : Range} {cfg : RollingRange} {idx : Nat}
    {members : List Timestamp} {es es2 : List Entry}
    (h : tagFirst r cfg idx members es = .ok es2) :
    es2.map tsNoneKey = es.map tsNoneKey := by
  unfold tagFirst at h
  by_cases hf : cfg.include_first
  · simp only [hf, if_true] at h
    cases hm : members.head? with
    | none => rw [hm] at h; simp at h; simp [h.symm]
    | some ts => rw [hm] at h; exact pushFulfill_tsNoneKey h
  · simp only [hf, if_false] at h
    simp at h
    simp [h.symm]

theorem tagLast_tsNoneKey {r : Range} {cfg : RollingRange} {idx : Nat}
    {members : List Timestamp} {es es2 : List Entry}
    (h : tagLast r cfg idx members es = .ok es2) :
    es2.map tsNoneKey = es.map tsNoneKey := by
  unfold tagLast at h
  by_cases hf : cfg.include_last
  · simp only [hf, if_true] at h
    cases hm : members.getLast? with
    | none => rw [hm] at h; simp at h; simp [h.symm]
    | some ts => rw [hm] at h; exact pushFulfill_tsNoneKey h
  · simp only [hf, if_false] at h
    simp at h
    simp [h.symm]

theorem tagBuckets_tsNoneKey {r : Range} {cfg : RollingRange} :
    ∀ {buckets : List (Timestamp × List Timestamp)} {idx : Nat}
      {es es2 : List Entry}, tagBuckets r cfg idx buckets es = .ok es2 →
      es2.map tsNoneKey = es.map tsNoneKey
  | [], _, es, es2, h => by
    simp [tagBuckets] at h
    simp [h.symm]
  | (bk, members) :: rest, idx, es, es2, h => by
    rw [show tagBuckets r cfg idx ((bk, members) :: rest) es =
      (tagFirst r cfg idx members es >>= fun es1 =>
        tagLast r cfg idx members es1 >>= fun esb =>
        tagBuckets r cfg (idx + 1) rest esb) from rfl] at h
    cases h1 : tagFirst r cfg idx members es with
    | error e => rw [h1, bindErr] at h; simp at h
    | ok es1 =>
      rw [h1, bindOk] at h
      cases h2 : tagLast r cfg idx members es1 with
      | error e => rw [h2, bindErr] at h; simp at h
      | ok esb =>
        rw [h2, bindOk] at h
        exact (tagBuckets_tsNoneKey h).trans ((tagLast_tsNoneKey h2).trans
          (tagFirst_tsNoneKey h1))

theorem mark_range_tsNoneKey {es : List Entry} {now : Timestamp} {r : Range}
    {cfg : RollingRange} {out : List Entry}
    (h : mark_range es now r cfg = .ok out) :
    out.map tsNoneKey = es.map tsNoneKey := by
  unfold mark_range at h
  cases hk : bucketKeys es now r cfg with
  | error e =>
    rw [show (do
        let keys ← bucketKeys es now r cfg
        tagBuckets r cfg 1 (rankedBuckets es r keys) es) =
      bucketKeys es now r cfg >>= (fun keys =>
        tagBuckets r cfg 1 (rankedBuckets es r keys) es) from rfl,
      hk, bindErr] at h
    simp at h
  | ok keys =>
    rw [show (do
        let keys ← bucketKeys es now r cfg
        tagBuckets r cfg 1 (rankedBuckets es r keys) es) =
      bucketKeys es now r cfg >>= (fun keys =>
        tagBuckets r cfg 1 (rankedBuckets es r keys) es) from rfl,
      hk, bindOk] at h
    exact tagBuckets_tsNoneKey h

theorem foldlM_mark_range_tsNoneKey (now : Timestamp) :
    ∀ (l : List (Range × RollingRange)) (es out : List Entry),
      l.foldlM (fun es rc => mark_range es now rc.1 rc.2) es = .ok out →
      out.map tsNoneKey = es.map tsNoneKey
  | [], es, out, h => by
    simp only [List.foldlM] at h
    rw [show (pure es : Except EngineError (List Entry)) = Except.ok es
      from rfl] at h
    simp only [Except.ok.injEq] at h
    rw [h]
  | rc :: rest, es, out, h => by
    rw [List.foldlM_cons] at h
    cases h1 : mark_range es now rc.1 rc.2 with
    | error e => rw [h1, bindErr] at h; simp at h
    | ok es1 =>
      rw [h1, bindOk] at h
      exact (foldlM_mark_range_tsNoneKey now rest es1 out h).trans
        (mark_range_tsNoneKey h1)

theorem Timestamp.lt_asymm {a b : Timestamp} (h : Timestamp.lt a b) :
    ¬ Timestamp.lt b a := by
  unfold Timestamp.lt at h ⊢; omega

theorem markLatestRev_spec :
    ∀ (l : List Entry) (i k : Nat), l.length ≤ k →
      (∀ e ∈ l, e.fulfills = []) →
      l.Pairwise (fun a b => Timestamp.lt b.timestamp a.timestamp) →
      ∀ e ∈ markLatestRev i k l,
        (e.fulfills.filter (fun f => f.range.isNone)).map Fulfillment.index =
          [i + 1 + ((l.map Entry.timestamp).filter
            (fun t => decide (Timestamp.lt e.timestamp t))).length]
  | [], i, k, _, _, _ => by
    intro e he
    cases k <;> simp [markLatestRev] at he
  | e0 :: l, i, k, hlen, hemp, hpw => by
    intro e he
    obtain ⟨k', rfl⟩ : ∃ k', k = k' + 1 := by
      cases k
      · simp at hlen
      · exact ⟨_, rfl⟩
    rw [markLatestRev] at he
    have he0 : e0.fulfills = [] := hemp e0 (by simp)
    rcases List.mem_cons.mp he with rfl | hrest
    · simp only [he0, List.nil_append]
      simp
      exact ⟨Timestamp.lt_irrefl _, fun a ha =>
        Timestamp.lt_asymm ((List.pairwise_cons.mp hpw).1 a ha)⟩
    · have hx := markLatestRev_spec l (i + 1) k' (by simpa using hlen)
        (fun x hx => hemp x (by simp [hx]))
        (List.pairwise_cons.mp hpw).2 e hrest
      have hts : e.timestamp ∈ l.map Entry.timestamp := by
        have hkeys := markLatestRev_key (i + 1) k' l
        have : entryKey e ∈ l.map entryKey := by
          rw [← hkeys]
          exact List.mem_map_of_mem entryKey hrest
        rw [List.mem_map] at this
        obtain ⟨b, hb, hbe⟩ := this
        rw [List.mem_map]
        exact ⟨b, hb, congrArg Prod.snd hbe⟩
      have hlt : Timestamp.lt e.timestamp e0.timestamp := by
        rw [List.mem_map] at hts
        obtain ⟨b, hb, hbe⟩ := hts
        rw [← hbe]
        exact (List.pairwise_cons.mp hpw).1 b hb
      rw [hx]
      have hdec : decide (Timestamp.lt e.timestamp e0.timestamp) = true := by
        simpa using hlt
      simp only [List.map_cons, List.filter_cons, hdec, if_true,
        List.length_cons]
      congr 1
      omega

theorem markLatest_spec (es : List Entry) (latest : Nat)
    (hlen : es.length ≤ latest) (hemp : ∀ e ∈ es, e.fulfills = [])
    (hsorted : es.Pairwise Entry.le)
    (hnd : (es.map Entry.timestamp).Nodup) :
    ∀ e ∈ markLatest es latest,
      (e.fulfills.filter (fun f => f.range.isNone)).map Fulfillment.index =
        [((es.map Entry.timestamp).filter
          (fun t => decide (Timestamp.lt e.timestamp t))).length + 1] := by
  intro e he
  have hpwlt : es.Pairwise (fun a b => Timestamp.lt a.timestamp b.timestamp) := by
    have hne : es.Pairwise (fun a b => a.timestamp ≠ b.timestamp) := by
      rw [← List.pairwise_map (f := Entry.timestamp)]
      exact hnd
    exact (hsorted.and hne).imp (fun hab =>
      Timestamp.lt_iff_le_ne.mpr ⟨hab.1, hab.2⟩)
  have hpwrev : es.reverse.Pairwise
      (fun a b => Timestamp.lt b.timestamp a.timestamp) := by
    rw [List.pairwise_reverse]
    exact hpwlt
  have hmem : e ∈ markLatestRev 0 latest es.reverse := by
    rw [markLatest, List.mem_reverse] at he
    exact he
  have := markLatestRev_spec es.reverse 0 latest (by simpa using hlen)
    (fun x hx => hemp x (List.mem_reverse.mp hx)) hpwrev e hmem
  rw [this]
  rw [List.map_reverse, List.filter_reverse, List.length_reverse]
  congr 1
  omega

theorem collectEntries_nodup :
    ∀ (files : List (String × Timestamp)) (acc out : List Entry),
      collectEntries files acc = .ok out →
      (acc.map Entry.timestamp).Nodup → (out.map Entry.timestamp).Nodup
  | [], acc, out, h, hnd => by
    simp [collectEntries] at h
    rw [← h]
    exact hnd
  | (p, ts) :: rest, acc, out, h, hnd => by
    cases hfind : acc.find? (fun e => e.timestamp = ts) with
    | some ex => simp [collectEntries, hfind] at h
    | none =>
      simp only [collectEntries, hfind] at h
      refine collectEntries_nodup rest (acc ++ [(⟨p, ts, []⟩ : Entry)]) out h ?_
      have hnotin : ts ∉ acc.map Entry.timestamp := by
        rw [List.find?_eq_none] at hfind
        simp only [List.mem_map]
        rintro ⟨e, he, hts⟩
        exact absurd (by simpa using hts) (by simpa using hfind e he)
      simp only [List.map_append, List.map_cons, List.map_nil]
      rw [List.nodup_append]
      exact ⟨hnd, List.nodup_singleton ts, by simpa using hnotin⟩

theorem read_backups_shape {files : List (String × Timestamp)}
    {localNow : Timestamp} {cfg : Ranges} {out : List Entry}
    (h : read_backups files localNow cfg = .ok out) :
    ∃ es0 final,
      collectEntries files [] = .ok es0 ∧
      cfg.iter_ranges.foldlM (fun es rc =>
          mark_range es (Timestamp.now localNow) rc.1 rc.2)
        (markLatest (es0.insertionSort Entry.le) cfg.latest) = .ok final ∧
      out = final.insertionSort Entry.le := by
  unfold read_backups read_dir at h
  cases hce : collectEntries files [] with
  | error e =>
    rw [hce] at h
    exact Except.noConfusion h
  | ok es0 =>
    rw [hce] at h
    have h2 : (cfg.iter_ranges.foldlM (fun es rc =>
        mark_range es (Timestamp.now localNow) rc.1 rc.2)
        (markLatest (es0.insertionSort Entry.le) cfg.latest) >>=
        (fun final => (Except.ok (final.insertionSort Entry.le) :
          Except EngineError (List Entry)))) = Except.ok out := h
    cases hfold : cfg.iter_ranges.foldlM (fun es rc =>
        mark_range es (Timestamp.now localNow) rc.1 rc.2)
        (markLatest (es0.insertionSort Entry.le) cfg.latest) with
    | error e => rw [hfold, bindErr] at h2; simp at h2
    | ok final =>
      rw [hfold, bindOk] at h2
      simp only [Except.ok.injEq] at h2
      exact ⟨es0, final, rfl, hfold, h2.symm⟩

theorem map_timestamp_of_map_tsNoneKey {l1 l2 : List Entry}
    (h : l1.map tsNoneKey = l2.map tsNoneKey) :
    l1.map Entry.timestamp = l2.map Entry.timestamp := by
  have := congrArg (List.map Prod.fst) h
  simpa [List.map_map, Function.comp, tsNoneKey] using this

theorem map_timestamp_of_map_entryKey {l1 l2 : List Entry}
    (h : l1.map entryKey = l2.map entryKey) :
    l1.map Entry.timestamp = l2.map Entry.timestamp := by
  have := congrArg (List.map Prod.snd) h
  simpa [List.map_map, Function.comp, entryKey] using this

theorem markLatestRev_zero (i : Nat) (l : List Entry) :
    markLatestRev i 0 l = l := by
  rw [markLatestRev]

/-- C3: on every successfully processed collection (distinct timestamps are
guaranteed by collection success): with `latest = 0` no entry carries a
`range = None` fulfillment; with `latest` at least the entry count, every
entry carries exactly one `range = None` fulfillment whose index is one
plus the number of entries with strictly greater timestamp — indices
`1..entry_count` assigned strictly by descending timestamp. -/
theorem latest_boundary (files : List (String × Timestamp))
    (localNow : Timestamp) (cfg : Ranges) (out : List Entry)
    (h : read_backups files localNow cfg = .ok out) :
    (cfg.latest = 0 → ∀ e ∈ out, ∀ f ∈ e.fulfills, f.range ≠ none) ∧
    (files.length ≤ cfg.latest → ∀ e ∈ out,
      (e.fulfills.filter (fun f => f.range.isNone)).map Fulfillment.index =
        [((out.map Entry.timestamp).filter
          (fun t => decide (Timestamp.lt e.timestamp t))).length + 1]) := by
  obtain ⟨es0, final, hce, hfold, hout⟩ := read_backups_shape h
  have hes0 : es0 = files.map (fun pt => ⟨pt.1, pt.2, []⟩) :=
    collectEntries_ok files [] es0 hce
  have hsortperm : (es0.insertionSort Entry.le).Perm es0 :=
    List.perm_insertionSort Entry.le es0
  have hempsorted : ∀ e ∈ es0.insertionSort Entry.le, e.fulfills = [] := by
    intro e he
    have hmem : e ∈ es0 := hsortperm.mem_iff.mp he
    rw [hes0] at hmem
    rw [List.mem_map] at hmem
    obtain ⟨pt, _, hpt⟩ := hmem
    rw [← hpt]
  have htsNone : final.map tsNoneKey =
      (markLatest (es0.insertionSort Entry.le) cfg.latest).map tsNoneKey :=
    foldlM_mark_range_tsNoneKey _ _ _ _ hfold
  have houtfinal : ∀ e ∈ out, e ∈ final := by
    intro e he
    rw [hout] at he
    exact (List.mem_insertionSort _).mp he
  constructor
  · intro hl0 e he f hf
    have he' := houtfinal e he
    have hmarked : markLatest (es0.insertionSort Entry.le) cfg.latest =
        es0.insertionSort Entry.le := by
      rw [hl0]
      unfold markLatest
      rw [markLatestRev_zero, List.reverse_reverse]
    rw [hmarked] at htsNone
    have hkmem : tsNoneKey e ∈ (es0.insertionSort Entry.le).map tsNoneKey := by
      rw [← htsNone]
      exact List.mem_map_of_mem tsNoneKey he'
    rw [List.mem_map] at hkmem
    obtain ⟨e2, he2, hkey⟩ := hkmem
    have hfempty : e.fulfills.filter (fun f => f.range.isNone) = [] := by
      have hsnd := congrArg Prod.snd hkey
      simp only [tsNoneKey] at hsnd
      rw [← hsnd, hempsorted e2 he2]
      rfl
    rw [List.filter_eq_nil_iff] at hfempty
    intro hrange
    exact hfempty f hf (by rw [hrange]; rfl)
  · intro hlen e he
    have hsortedS : (es0.insertionSort Entry.le).Pairwise Entry.le :=
      List.sorted_insertionSort Entry.le es0
    have hnd0 : (es0.map Entry.timestamp).Nodup :=
      collectEntries_nodup files [] es0 hce (by simp)
    have hndsorted : ((es0.insertionSort Entry.le).map Entry.timestamp).Nodup :=
      ((hsortperm.map Entry.timestamp).nodup_iff).mpr hnd0
    have hlensorted : (es0.insertionSort Entry.le).length ≤ cfg.latest := by
      rw [hsortperm.length_eq, hes0, List.length_map]
      exact hlen
    have hml := markLatest_spec (es0.insertionSort Entry.le) cfg.latest
      hlensorted hempsorted hsortedS hndsorted
    have he' := houtfinal e he
    have hkmem : tsNoneKey e ∈
        (markLatest (es0.insertionSort Entry.le) cfg.latest).map tsNoneKey := by
      rw [← htsNone]
      exact List.mem_map_of_mem tsNoneKey he'
    rw [List.mem_map] at hkmem
    obtain ⟨e2, he2, hkey⟩ := hkmem
    have hts2 : e2.timestamp = e.timestamp := congrArg Prod.fst hkey
    have hfl2 : e2.fulfills.filter (fun f => f.range.isNone) =
        e.fulfills.filter (fun f => f.range.isNone) := by
      have hsnd := congrArg Prod.snd hkey
      simpa [tsNoneKey] using hsnd
    have hspec := hml e2 he2
    rw [hfl2, hts2] at hspec
    rw [hspec]
    have hmapfinal : final.map Entry.timestamp =
        (markLatest (es0.insertionSort Entry.le) cfg.latest).map
          Entry.timestamp :=
      map_timestamp_of_map_tsNoneKey htsNone
    have hmapmarked : (markLatest (es0.insertionSort Entry.le)
        cfg.latest).map Entry.timestamp =
        (es0.insertionSort Entry.le).map Entry.timestamp :=
      map_timestamp_of_map_entryKey (markLatest_key _ _)
    have houtperm : (out.map Entry.timestamp).Perm
        ((es0.insertionSort Entry.le).map Entry.timestamp) := by
      rw [hout]
      have hp : ((final.insertionSort Entry.le).map Entry.timestamp).Perm
          (final.map Entry.timestamp) :=
        (List.perm_insertionSort Entry.le final).map Entry.timestamp
      rw [hmapfinal, hmapmarked] at hp
      exact hp
    have hcnt := (houtperm.filter
      (fun t => decide (Timestamp.lt e.timestamp t))).length_eq
    rw [hcnt]

/-- Witness for C3 at a concrete two-entry collection with `latest = 5`. -/
theorem latest_boundary_w :
    ((5 : Nat) = 0 → ∀ e ∈ ([⟨"a", ⟨2024, 5, 9, 12, 0, 0, 0⟩,
        [⟨none, 2, true⟩]⟩,
      ⟨"b", ⟨2024, 5, 10, 12, 0, 0, 0⟩, [⟨none, 1, true⟩]⟩] : List Entry),
      ∀ f ∈ e.fulfills, f.range ≠ none) ∧
    ((2 : Nat) ≤ 5 → ∀ e ∈ ([⟨"a", ⟨2024, 5, 9, 12, 0, 0, 0⟩,
        [⟨none, 2, true⟩]⟩,
      ⟨"b", ⟨2024, 5, 10, 12, 0, 0, 0⟩, [⟨none, 1, true⟩]⟩] : List Entry),
      (e.fulfills.filter (fun f => f.range.isNone)).map Fulfillment.index =
        [((([⟨"a", ⟨2024, 5, 9, 12, 0, 0, 0⟩, [⟨none, 2, true⟩]⟩,
          ⟨"b", ⟨2024, 5, 10, 12, 0, 0, 0⟩,
            [⟨none, 1, true⟩]⟩] : List Entry).map Entry.timestamp).filter
          (fun t => decide (Timestamp.lt e.timestamp t))).length + 1]) :=
  latest_boundary
    [("a", ⟨2024, 5, 9, 12, 0, 0, 0⟩), ("b", ⟨2024, 5, 10, 12, 0, 0, 0⟩)]
    sampleT
    ⟨5, ⟨0, true, true, true⟩, ⟨0, true, true, true⟩, ⟨0, true, true, true⟩,
      ⟨0, true, true, true⟩, ⟨0, true, true, true⟩⟩
    [⟨"a", ⟨2024, 5, 9, 12, 0, 0, 0⟩, [⟨none, 2, true⟩]⟩,
     ⟨"b", ⟨2024, 5, 10, 12, 0, 0, 0⟩, [⟨none, 1, true⟩]⟩]
    (by rfl)

theorem Timestamp.not_le_of_lt {a b : Timestamp} (h : Timestamp.lt a b) :
    ¬ Timestamp.le b a := by
  unfold Timestamp.lt at h
  unfold Timestamp.le
  omega

theorem Timestamp.ne_of_lt {a b : Timestamp} (h : Timestamp.lt a b) :
    a ≠ b :=
  (Timestamp.lt_iff_le_ne.mp h).2

theorem Timestamp.prevDay_lt (t : Timestamp) : Timestamp.lt t.prevDay t := by
  cases t with
  | mk y mo d hh mm ss nn =>
    have hd := daysInMonth_pos y (mo - 1)
    simp only [Timestamp.prevDay]
    split_ifs <;> simp [Timestamp.lt] <;> omega

theorem Timestamp.shift_day_neg (t : Timestamp) (n : Nat) (h : 0 < n) :
    t.shift .Day (-(n : Int)) = Timestamp.prevDay^[n] t := by
  simp only [Timestamp.shift, stepBy]
  rw [if_neg (by omega)]
  norm_num

theorem Timestamp.prevDay_iterate_lt (t : Timestamp) (n : Nat) :
    Timestamp.lt (Timestamp.prevDay^[n + 1] t) (Timestamp.prevDay^[n] t) := by
  rw [Function.iterate_succ_apply']
  exact Timestamp.prevDay_lt _

theorem Timestamp.floor_day_le_mono {a b : Timestamp}
    (h : Timestamp.le a b) : Timestamp.le (a.floor .Day) (b.floor .Day) := by
  cases a; cases b
  simp only [Timestamp.le] at h
  simp [Timestamp.floor, Timestamp.le]
  omega

theorem Timestamp.floor_day_lt_date {a b : Timestamp}
    (h : Timestamp.lt a b)
    (hdate : ¬ (a.year = b.year ∧ a.month = b.month ∧ a.day = b.day)) :
    Timestamp.lt (a.floor .Day) (b.floor .Day) := by
  cases a; cases b
  simp only [Timestamp.lt] at h
  simp only [Timestamp.mk.injEq] at hdate
  simp [Timestamp.floor, Timestamp.lt]
  omega

theorem Timestamp.prevDay_date_lt (t : Timestamp) :
    Timestamp.lt (t.prevDay.floor .Day) (t.floor .Day) := by
  cases t with
  | mk y mo d hh mm ss nn =>
    have hd := daysInMonth_pos y (mo - 1)
    simp only [Timestamp.prevDay]
    split_ifs <;> simp [Timestamp.floor, Timestamp.lt] <;> omega

theorem Timestamp.prevDay_iterate_date_lt (t : Timestamp) (n : Nat) :
    Timestamp.lt ((Timestamp.prevDay^[n + 1] t).floor .Day)
      ((Timestamp.prevDay^[n] t).floor .Day) := by
  rw [Function.iterate_succ_apply']
  exact Timestamp.prevDay_date_lt _

theorem collectEntries_ok_of_nodup :
    ∀ (files : List (String × Timestamp)) (acc : List Entry),
      (acc.map Entry.timestamp ++ files.map Prod.snd).Nodup →
      collectEntries files acc =
        .ok (acc ++ files.map (fun pt => ⟨pt.1, pt.2, []⟩))
  | [], acc, _ => by simp [collectEntries]
  | (p, ts) :: rest, acc, hnd => by
    have hfind : acc.find? (fun e => e.timestamp = ts) = none := by
      rw [List.find?_eq_none]
      intro e he
      simp only [decide_eq_true_eq]
      intro hts
      have h1 : ts ∈ acc.map Entry.timestamp :=
        hts ▸ List.mem_map_of_mem Entry.timestamp he
      have h2 : ts ∈ ((p, ts) :: rest).map Prod.snd := by simp
      exact (List.disjoint_of_nodup_append hnd) h1 h2
    simp only [collectEntries, hfind]
    have hnd2 : ((acc ++ [(⟨p, ts, []⟩ : Entry)]).map Entry.timestamp
        ++ rest.map Prod.snd).Nodup := by
      simp only [List.map_append, List.map_cons, List.map_nil,
        List.append_assoc, List.singleton_append]
      simpa using hnd
    rw [collectEntries_ok_of_nodup rest (acc ++ [(⟨p, ts, []⟩ : Entry)]) hnd2]
    simp

theorem pushFulfill_cons_eq {ts : Timestamp} {f : Fulfillment} {e : Entry}
    {es : List Entry} (h : e.timestamp = ts) :
    pushFulfill ts f (e :: es) =
      .ok ({ e with fulfills := e.fulfills ++ [f] } :: es) := by
  simp [pushFulfill, h]

theorem pushFulfill_cons_ne {ts : Timestamp} {f : Fulfillment} {e : Entry}
    {es es2 : List Entry} (h : ¬ e.timestamp = ts)
    (h2 : pushFulfill ts f es = .ok es2) :
    pushFulfill ts f (e :: es) = .ok (e :: es2) := by
  simp [pushFulfill, h, h2]

theorem sorted_five {α : Type} {r : α → α → Prop}
    (htr : ∀ {x y z : α}, r x y → r y z → r x z) {a b c d e : α}
    (h1 : r a b) (h2 : r b c) (h3 : r c d) (h4 : r d e) :
    List.Sorted r [a, b, c, d, e] := by
  simp only [List.sorted_cons, List.mem_cons, List.mem_singleton,
    List.not_mem_nil, List.sorted_nil, and_true, forall_eq_or_imp, forall_eq,
    false_implies, forall_const]
  exact ⟨⟨h1, htr h1 h2, htr (htr h1 h2) h3, htr (htr (htr h1 h2) h3) h4,
      fun _ => trivial⟩,
    ⟨h2, htr h2 h3, htr (htr h2 h3) h4, fun _ => trivial⟩,
    ⟨h3, htr h3 h4, fun _ => trivial⟩, ⟨h4, fun _ => trivial⟩,
    fun _ => trivial⟩

theorem nodup_five {α : Type} {a b c d e : α}
    (hab : a ≠ b) (hac : a ≠ c) (had : a ≠ d) (hae : a ≠ e) (hbc : b ≠ c)
    (hbd : b ≠ d) (hbe : b ≠ e) (hcd : c ≠ d) (hce : c ≠ e) (hde : d ≠ e) :
    List.Nodup [a, b, c, d, e] := by
  simp only [List.nodup_cons, List.mem_cons, List.mem_singleton,
    List.not_mem_nil, not_false_iff, and_true, not_or, List.nodup_nil]
  exact ⟨⟨hab, hac, had, hae⟩, ⟨hbc, hbd, hbe⟩, ⟨hcd, hce⟩, hde⟩

theorem entry_sorted_five {a b c d e : Entry} (h1 : Entry.le a b)
    (h2 : Entry.le b c) (h3 : Entry.le c d) (h4 : Entry.le d e) :
    List.Sorted Entry.le [a, b, c, d, e] :=
  @sorted_five Entry Entry.le
    (fun {x y z} hx hy => Timestamp.le_trans hx hy) a b c d e h1 h2 h3 h4

/-- The policy of the end-to-end scenario for the four inert ranges:
`total = 0`. -/
def zeroPolicy : RollingRange := ⟨0, true, true, true⟩

/-- The day policy of the end-to-end scenario:
`{total: 2, allow_sparse: true, include_first: true, include_last: true}`. -/
def dayScenarioPolicy : RollingRange := ⟨2, true, true, true⟩

/-- The full policy of the end-to-end scenario: `latest = 1`, days as above,
`total = 0` for the other four ranges. -/
def scenarioRanges : Ranges :=
  ⟨1, zeroPolicy, zeroPolicy, dayScenarioPolicy, zeroPolicy, zeroPolicy⟩

theorem read_backups_eval {files : List (String × Timestamp)}
    {localNow : Timestamp} {cfg : Ranges} {es0 final : List Entry}
    (hce : collectEntries files [] = .ok es0)
    (hfold : cfg.iter_ranges.foldlM (fun es rc =>
        mark_range es (Timestamp.now localNow) rc.1 rc.2)
      (markLatest (es0.insertionSort Entry.le) cfg.latest) = .ok final) :
    read_backups files localNow cfg = .ok (final.insertionSort Entry.le) := by
  unfold read_backups read_dir
  simp only [hce, bindOk]
  rw [hfold, bindOk]

set_option maxHeartbeats 1600000 in
theorem scenario_core (t0 t1 t2 t3 t4 : Timestamp) (p0 p1 p2 p3 p4 : String)
    (h01 : Timestamp.lt t0 t1) (h12 : Timestamp.lt t1 t2)
    (h23 : Timestamp.lt t2 t3) (h34 : Timestamp.lt t3 t4)
    (g01 : Timestamp.lt (t0.floor .Day) (t1.floor .Day))
    (g12 : Timestamp.lt (t1.floor .Day) (t2.floor .Day))
    (g23 : Timestamp.lt (t2.floor .Day) (t3.floor .Day))
    (g34 : Timestamp.lt (t3.floor .Day) (t4.floor .Day)) :
    read_backups [(p0, t0), (p1, t1), (p2, t2), (p3, t3), (p4, t4)] t4 scenarioRanges = .ok [⟨p0, t0, []⟩, ⟨p1, t1, []⟩, ⟨p2, t2, []⟩, ⟨p3, t3, [⟨some .Day, 2, true⟩, ⟨some .Day, 2, false⟩]⟩, ⟨p4, t4, [⟨none, 1, true⟩, ⟨some .Day, 1, true⟩, ⟨some .Day, 1, false⟩]⟩] := by
  have h02 := Timestamp.lt_trans h01 h12
  have h03 := Timestamp.lt_trans h02 h23
  have h04 := Timestamp.lt_trans h03 h34
  have h13 := Timestamp.lt_trans h12 h23
  have h14 := Timestamp.lt_trans h13 h34
  have h24 := Timestamp.lt_trans h23 h34
  have n01 := Timestamp.ne_of_lt h01
  have n02 := Timestamp.ne_of_lt h02
  have n03 := Timestamp.ne_of_lt h03
  have n04 := Timestamp.ne_of_lt h04
  have n12 := Timestamp.ne_of_lt h12
  have n13 := Timestamp.ne_of_lt h13
  have n14 := Timestamp.ne_of_lt h14
  have n23 := Timestamp.ne_of_lt h23
  have n24 := Timestamp.ne_of_lt h24
  have n34 := Timestamp.ne_of_lt h34
  have l01 := Timestamp.le_of_lt h01
  have l12 := Timestamp.le_of_lt h12
  have l23 := Timestamp.le_of_lt h23
  have l34 := Timestamp.le_of_lt h34
  have g02 := Timestamp.lt_trans g01 g12
  have g03 := Timestamp.lt_trans g02 g23
  have g04 := Timestamp.lt_trans g03 g34
  have g13 := Timestamp.lt_trans g12 g23
  have g14 := Timestamp.lt_trans g13 g34
  have g24 := Timestamp.lt_trans g23 g34
  have fn01 := Timestamp.ne_of_lt g01
  have fn02 := Timestamp.ne_of_lt g02
  have fn03 := Timestamp.ne_of_lt g03
  have fn04 := Timestamp.ne_of_lt g04
  have fn12 := Timestamp.ne_of_lt g12
  have fn13 := Timestamp.ne_of_lt g13
  have fn14 := Timestamp.ne_of_lt g14
  have fn23 := Timestamp.ne_of_lt g23
  have fn24 := Timestamp.ne_of_lt g24
  have fn34 := Timestamp.ne_of_lt g34
  have fl01 := Timestamp.le_of_lt g01
  have fl12 := Timestamp.le_of_lt g12
  have fl23 := Timestamp.le_of_lt g23
  have fl34 := Timestamp.le_of_lt g34
  have hce : collectEntries [(p0, t0), (p1, t1), (p2, t2), (p3, t3), (p4, t4)] [] = .ok [⟨p0, t0, []⟩, ⟨p1, t1, []⟩, ⟨p2, t2, []⟩, ⟨p3, t3, []⟩, ⟨p4, t4, []⟩] := by
    have hcek := collectEntries_ok_of_nodup [(p0, t0), (p1, t1), (p2, t2), (p3, t3), (p4, t4)] [] (by
      simpa using nodup_five n01 n02 n03 n04 n12 n13 n14 n23 n24 n34)
    simpa using hcek
  have hsort0 : List.insertionSort Entry.le [⟨p0, t0, []⟩, ⟨p1, t1, []⟩, ⟨p2, t2, []⟩, ⟨p3, t3, []⟩, ⟨p4, t4, []⟩] = [⟨p0, t0, []⟩, ⟨p1, t1, []⟩, ⟨p2, t2, []⟩, ⟨p3, t3, []⟩, ⟨p4, t4, []⟩] :=
    List.Sorted.insertionSort_eq (entry_sorted_five l01 l12 l23 l34)
  have hded : ([t0.floor .Day, t1.floor .Day, t2.floor .Day, t3.floor .Day, t4.floor .Day] : List Timestamp).dedup = [t0.floor .Day, t1.floor .Day, t2.floor .Day, t3.floor .Day, t4.floor .Day] :=
    List.dedup_eq_self.mpr
      (nodup_five fn01 fn02 fn03 fn04 fn12 fn13 fn14 fn23 fn24 fn34)
  have hfsorted : List.insertionSort Timestamp.le [t0.floor .Day, t1.floor .Day, t2.floor .Day, t3.floor .Day, t4.floor .Day] = [t0.floor .Day, t1.floor .Day, t2.floor .Day, t3.floor .Day, t4.floor .Day] :=
    List.Sorted.insertionSort_eq
      (@sorted_five Timestamp Timestamp.le
        (fun {x y z} hx hy => Timestamp.le_trans hx hy) _ _ _ _ _
        fl01 fl12 fl23 fl34)
  have hkeys : bucketKeys [⟨p0, t0, []⟩, ⟨p1, t1, []⟩, ⟨p2, t2, []⟩, ⟨p3, t3, []⟩, ⟨p4, t4, [⟨none, 1, true⟩]⟩] t4 Range.Day dayScenarioPolicy =
      .ok [t4.floor .Day, t3.floor .Day] := by
    unfold bucketKeys
    rw [if_pos (show dayScenarioPolicy.allow_sparse = true from rfl)]
    congr 1
    unfold sparseBucketKeys
    rw [show List.map (fun e : Entry => e.timestamp.floor Range.Day)
      ([⟨p0, t0, []⟩, ⟨p1, t1, []⟩, ⟨p2, t2, []⟩, ⟨p3, t3, []⟩, ⟨p4, t4, [⟨none, 1, true⟩]⟩] : List Entry) =
      [t0.floor .Day, t1.floor .Day, t2.floor .Day, t3.floor .Day, t4.floor .Day] from rfl]
    rw [hded, hfsorted]
    rfl
  have hfm4 : List.filterMap (fun e : Entry =>
      if e.timestamp.floor Range.Day = t4.floor .Day then some e.timestamp
      else none) ([⟨p0, t0, []⟩, ⟨p1, t1, []⟩, ⟨p2, t2, []⟩, ⟨p3, t3, []⟩, ⟨p4, t4, [⟨none, 1, true⟩]⟩] : List Entry) = [t4] := by
    rw [List.filterMap_cons_none (by exact if_neg fn04),
      List.filterMap_cons_none (by exact if_neg fn14),
      List.filterMap_cons_none (by exact if_neg fn24),
      List.filterMap_cons_none (by exact if_neg fn34),
      List.filterMap_cons_some (by exact if_pos rfl)]
    rfl
  have hfm3 : List.filterMap (fun e : Entry =>
      if e.timestamp.floor Range.Day = t3.floor .Day then some e.timestamp
      else none) ([⟨p0, t0, []⟩, ⟨p1, t1, []⟩, ⟨p2, t2, []⟩, ⟨p3, t3, []⟩, ⟨p4, t4, [⟨none, 1, true⟩]⟩] : List Entry) = [t3] := by
    rw [List.filterMap_cons_none (by exact if_neg fn03),
      List.filterMap_cons_none (by exact if_neg fn13),
      List.filterMap_cons_none (by exact if_neg fn23),
      List.filterMap_cons_some (by exact if_pos rfl),
      List.filterMap_cons_none (by exact if_neg fn34.symm)]
    rfl
  have hrank : rankedBuckets [⟨p0, t0, []⟩, ⟨p1, t1, []⟩, ⟨p2, t2, []⟩, ⟨p3, t3, []⟩, ⟨p4, t4, [⟨none, 1, true⟩]⟩] Range.Day [t4.floor .Day, t3.floor .Day] =
      [(t4.floor .Day, [t4]), (t3.floor .Day, [t3])] := by
    unfold rankedBuckets
    rw [List.dedup_eq_self.mpr (by
      simp only [List.nodup_cons, List.mem_singleton, List.not_mem_nil,
        not_false_iff, and_true, List.nodup_nil]
      exact fn34.symm)]
    rw [show List.insertionSort Timestamp.le [t4.floor .Day, t3.floor .Day] =
        [t3.floor .Day, t4.floor .Day] from by
      simp only [List.insertionSort, List.orderedInsert]
      rw [if_neg (Timestamp.not_le_of_lt g34)]]
    simp only [List.reverse_cons, List.reverse_nil, List.nil_append,
      List.singleton_append, List.map_cons, List.map_nil]
    rw [hfm4, hfm3]
    rfl
  have hp1 : pushFulfill t4 ⟨some .Day, 1, true⟩ [⟨p0, t0, []⟩, ⟨p1, t1, []⟩, ⟨p2, t2, []⟩, ⟨p3, t3, []⟩, ⟨p4, t4, [⟨none, 1, true⟩]⟩] = .ok [⟨p0, t0, []⟩, ⟨p1, t1, []⟩, ⟨p2, t2, []⟩, ⟨p3, t3, []⟩, ⟨p4, t4, [⟨none, 1, true⟩, ⟨some .Day, 1, true⟩]⟩] :=
    pushFulfill_cons_ne n04 (pushFulfill_cons_ne n14 (pushFulfill_cons_ne n24
      (pushFulfill_cons_ne n34 (pushFulfill_cons_eq rfl))))
  have hp2 : pushFulfill t4 ⟨some .Day, 1, false⟩ [⟨p0, t0, []⟩, ⟨p1, t1, []⟩, ⟨p2, t2, []⟩, ⟨p3, t3, []⟩, ⟨p4, t4, [⟨none, 1, true⟩, ⟨some .Day, 1, true⟩]⟩] = .ok [⟨p0, t0, []⟩, ⟨p1, t1, []⟩, ⟨p2, t2, []⟩, ⟨p3, t3, []⟩, ⟨p4, t4, [⟨none, 1, true⟩, ⟨some .Day, 1, true⟩, ⟨some .Day, 1, false⟩]⟩] :=
    pushFulfill_cons_ne n04 (pushFulfill_cons_ne n14 (pushFulfill_cons_ne n24
      (pushFulfill_cons_ne n34 (pushFulfill_cons_eq rfl))))
  have hp3 : pushFulfill t3 ⟨some .Day, 2, true⟩ [⟨p0, t0, []⟩, ⟨p1, t1, []⟩, ⟨p2, t2, []⟩, ⟨p3, t3, []⟩, ⟨p4, t4, [⟨none, 1, true⟩, ⟨some .Day, 1, true⟩, ⟨some .Day, 1, false⟩]⟩] = .ok [⟨p0, t0, []⟩, ⟨p1, t1, []⟩, ⟨p2, t2, []⟩, ⟨p3, t3, [⟨some .Day, 2, true⟩]⟩, ⟨p4, t4, [⟨none, 1, true⟩, ⟨some .Day, 1, true⟩, ⟨some .Day, 1, false⟩]⟩] :=
    pushFulfill_cons_ne n03 (pushFulfill_cons_ne n13 (pushFulfill_cons_ne n23
      (pushFulfill_cons_eq rfl)))
  have hp4 : pushFulfill t3 ⟨some .Day, 2, false⟩ [⟨p0, t0, []⟩, ⟨p1, t1, []⟩, ⟨p2, t2, []⟩, ⟨p3, t3, [⟨some .Day, 2, true⟩]⟩, ⟨p4, t4, [⟨none, 1, true⟩, ⟨some .Day, 1, true⟩, ⟨some .Day, 1, false⟩]⟩] = .ok [⟨p0, t0, []⟩, ⟨p1, t1, []⟩, ⟨p2, t2, []⟩, ⟨p3, t3, [⟨some .Day, 2, true⟩, ⟨some .Day, 2, false⟩]⟩, ⟨p4, t4, [⟨none, 1, true⟩, ⟨some .Day, 1, true⟩, ⟨some .Day, 1, false⟩]⟩] :=
    pushFulfill_cons_ne n03 (pushFulfill_cons_ne n13 (pushFulfill_cons_ne n23
      (pushFulfill_cons_eq rfl)))
  have htag : tagBuckets Range.Day dayScenarioPolicy 1
      [(t4.floor .Day, [t4]), (t3.floor .Day, [t3])] [⟨p0, t0, []⟩, ⟨p1, t1, []⟩, ⟨p2, t2, []⟩, ⟨p3, t3, []⟩, ⟨p4, t4, [⟨none, 1, true⟩]⟩] = .ok [⟨p0, t0, []⟩, ⟨p1, t1, []⟩, ⟨p2, t2, []⟩, ⟨p3, t3, [⟨some .Day, 2, true⟩, ⟨some .Day, 2, false⟩]⟩, ⟨p4, t4, [⟨none, 1, true⟩, ⟨some .Day, 1, true⟩, ⟨some .Day, 1, false⟩]⟩] := by
    rw [show tagBuckets Range.Day dayScenarioPolicy 1
        [(t4.floor .Day, [t4]), (t3.floor .Day, [t3])] [⟨p0, t0, []⟩, ⟨p1, t1, []⟩, ⟨p2, t2, []⟩, ⟨p3, t3, []⟩, ⟨p4, t4, [⟨none, 1, true⟩]⟩] =
      (tagFirst Range.Day dayScenarioPolicy 1 [t4] [⟨p0, t0, []⟩, ⟨p1, t1, []⟩, ⟨p2, t2, []⟩, ⟨p3, t3, []⟩, ⟨p4, t4, [⟨none, 1, true⟩]⟩] >>= fun x =>
        tagLast Range.Day dayScenarioPolicy 1 [t4] x >>= fun y =>
        tagBuckets Range.Day dayScenarioPolicy 2 [(t3.floor .Day, [t3])] y)
      from rfl]
    rw [show tagFirst Range.Day dayScenarioPolicy 1 [t4] [⟨p0, t0, []⟩, ⟨p1, t1, []⟩, ⟨p2, t2, []⟩, ⟨p3, t3, []⟩, ⟨p4, t4, [⟨none, 1, true⟩]⟩] =
      pushFulfill t4 ⟨some .Day, 1, true⟩ [⟨p0, t0, []⟩, ⟨p1, t1, []⟩, ⟨p2, t2, []⟩, ⟨p3, t3, []⟩, ⟨p4, t4, [⟨none, 1, true⟩]⟩] from rfl, hp1, bindOk]
    rw [show tagLast Range.Day dayScenarioPolicy 1 [t4] [⟨p0, t0, []⟩, ⟨p1, t1, []⟩, ⟨p2, t2, []⟩, ⟨p3, t3, []⟩, ⟨p4, t4, [⟨none, 1, true⟩, ⟨some .Day, 1, true⟩]⟩] =
      pushFulfill t4 ⟨some .Day, 1, false⟩ [⟨p0, t0, []⟩, ⟨p1, t1, []⟩, ⟨p2, t2, []⟩, ⟨p3, t3, []⟩, ⟨p4, t4, [⟨none, 1, true⟩, ⟨some .Day, 1, true⟩]⟩] from rfl, hp2, bindOk]
    rw [show tagBuckets Range.Day dayScenarioPolicy 2
        [(t3.floor .Day, [t3])] [⟨p0, t0, []⟩, ⟨p1, t1, []⟩, ⟨p2, t2, []⟩, ⟨p3, t3, []⟩, ⟨p4, t4, [⟨none, 1, true⟩, ⟨some .Day, 1, true⟩, ⟨some .Day, 1, false⟩]⟩] =
      (tagFirst Range.Day dayScenarioPolicy 2 [t3] [⟨p0, t0, []⟩, ⟨p1, t1, []⟩, ⟨p2, t2, []⟩, ⟨p3, t3, []⟩, ⟨p4, t4, [⟨none, 1, true⟩, ⟨some .Day, 1, true⟩, ⟨some .Day, 1, false⟩]⟩] >>= fun x =>
        tagLast Range.Day dayScenarioPolicy 2 [t3] x >>= fun y =>
        tagBuckets Range.Day dayScenarioPolicy 3 [] y) from rfl]
    rw [show tagFirst Range.Day dayScenarioPolicy 2 [t3] [⟨p0, t0, []⟩, ⟨p1, t1, []⟩, ⟨p2, t2, []⟩, ⟨p3, t3, []⟩, ⟨p4, t4, [⟨none, 1, true⟩, ⟨some .Day, 1, true⟩, ⟨some .Day, 1, false⟩]⟩] =
      pushFulfill t3 ⟨some .Day, 2, true⟩ [⟨p0, t0, []⟩, ⟨p1, t1, []⟩, ⟨p2, t2, []⟩, ⟨p3, t3, []⟩, ⟨p4, t4, [⟨none, 1, true⟩, ⟨some .Day, 1, true⟩, ⟨some .Day, 1, false⟩]⟩] from rfl, hp3, bindOk]
    rw [show tagLast Range.Day dayScenarioPolicy 2 [t3] [⟨p0, t0, []⟩, ⟨p1, t1, []⟩, ⟨p2, t2, []⟩, ⟨p3, t3, [⟨some .Day, 2, true⟩]⟩, ⟨p4, t4, [⟨none, 1, true⟩, ⟨some .Day, 1, true⟩, ⟨some .Day, 1, false⟩]⟩] =
      pushFulfill t3 ⟨some .Day, 2, false⟩ [⟨p0, t0, []⟩, ⟨p1, t1, []⟩, ⟨p2, t2, []⟩, ⟨p3, t3, [⟨some .Day, 2, true⟩]⟩, ⟨p4, t4, [⟨none, 1, true⟩, ⟨some .Day, 1, true⟩, ⟨some .Day, 1, false⟩]⟩] from rfl, hp4, bindOk]
    rfl
  have hday : mark_range [⟨p0, t0, []⟩, ⟨p1, t1, []⟩, ⟨p2, t2, []⟩, ⟨p3, t3, []⟩, ⟨p4, t4, [⟨none, 1, true⟩]⟩] t4 Range.Day dayScenarioPolicy = .ok [⟨p0, t0, []⟩, ⟨p1, t1, []⟩, ⟨p2, t2, []⟩, ⟨p3, t3, [⟨some .Day, 2, true⟩, ⟨some .Day, 2, false⟩]⟩, ⟨p4, t4, [⟨none, 1, true⟩, ⟨some .Day, 1, true⟩, ⟨some .Day, 1, false⟩]⟩] := by
    rw [show mark_range [⟨p0, t0, []⟩, ⟨p1, t1, []⟩, ⟨p2, t2, []⟩, ⟨p3, t3, []⟩, ⟨p4, t4, [⟨none, 1, true⟩]⟩] t4 Range.Day dayScenarioPolicy =
      (bucketKeys [⟨p0, t0, []⟩, ⟨p1, t1, []⟩, ⟨p2, t2, []⟩, ⟨p3, t3, []⟩, ⟨p4, t4, [⟨none, 1, true⟩]⟩] t4 Range.Day dayScenarioPolicy >>= fun keys =>
        tagBuckets Range.Day dayScenarioPolicy 1
          (rankedBuckets [⟨p0, t0, []⟩, ⟨p1, t1, []⟩, ⟨p2, t2, []⟩, ⟨p3, t3, []⟩, ⟨p4, t4, [⟨none, 1, true⟩]⟩] Range.Day keys) [⟨p0, t0, []⟩, ⟨p1, t1, []⟩, ⟨p2, t2, []⟩, ⟨p3, t3, []⟩, ⟨p4, t4, [⟨none, 1, true⟩]⟩]) from rfl]
    rw [hkeys, bindOk, hrank, htag]
  have hfold : (scenarioRanges.iter_ranges).foldlM
      (fun es rc => mark_range es (Timestamp.now t4) rc.1 rc.2) [⟨p0, t0, []⟩, ⟨p1, t1, []⟩, ⟨p2, t2, []⟩, ⟨p3, t3, []⟩, ⟨p4, t4, [⟨none, 1, true⟩]⟩] =
      .ok [⟨p0, t0, []⟩, ⟨p1, t1, []⟩, ⟨p2, t2, []⟩, ⟨p3, t3, [⟨some .Day, 2, true⟩, ⟨some .Day, 2, false⟩]⟩, ⟨p4, t4, [⟨none, 1, true⟩, ⟨some .Day, 1, true⟩, ⟨some .Day, 1, false⟩]⟩] := by
    rw [show scenarioRanges.iter_ranges =
      [(Range.Minute, zeroPolicy), (Range.Hour, zeroPolicy),
        (Range.Day, dayScenarioPolicy), (Range.Month, zeroPolicy),
        (Range.Year, zeroPolicy)] from rfl]
    rw [List.foldlM_cons, show mark_range [⟨p0, t0, []⟩, ⟨p1, t1, []⟩, ⟨p2, t2, []⟩, ⟨p3, t3, []⟩, ⟨p4, t4, [⟨none, 1, true⟩]⟩] (Timestamp.now t4)
      Range.Minute zeroPolicy = .ok [⟨p0, t0, []⟩, ⟨p1, t1, []⟩, ⟨p2, t2, []⟩, ⟨p3, t3, []⟩, ⟨p4, t4, [⟨none, 1, true⟩]⟩] from rfl, bindOk]
    rw [List.foldlM_cons, show mark_range [⟨p0, t0, []⟩, ⟨p1, t1, []⟩, ⟨p2, t2, []⟩, ⟨p3, t3, []⟩, ⟨p4, t4, [⟨none, 1, true⟩]⟩] (Timestamp.now t4)
      Range.Hour zeroPolicy = .ok [⟨p0, t0, []⟩, ⟨p1, t1, []⟩, ⟨p2, t2, []⟩, ⟨p3, t3, []⟩, ⟨p4, t4, [⟨none, 1, true⟩]⟩] from rfl, bindOk]
    rw [List.foldlM_cons, show mark_range [⟨p0, t0, []⟩, ⟨p1, t1, []⟩, ⟨p2, t2, []⟩, ⟨p3, t3, []⟩, ⟨p4, t4, [⟨none, 1, true⟩]⟩] (Timestamp.now t4)
      Range.Day dayScenarioPolicy = .ok [⟨p0, t0, []⟩, ⟨p1, t1, []⟩, ⟨p2, t2, []⟩, ⟨p3, t3, [⟨some .Day, 2, true⟩, ⟨some .Day, 2, false⟩]⟩, ⟨p4, t4, [⟨none, 1, true⟩, ⟨some .Day, 1, true⟩, ⟨some .Day, 1, false⟩]⟩] from hday, bindOk]
    rw [List.foldlM_cons, show mark_range [⟨p0, t0, []⟩, ⟨p1, t1, []⟩, ⟨p2, t2, []⟩, ⟨p3, t3, [⟨some .Day, 2, true⟩, ⟨some .Day, 2, false⟩]⟩, ⟨p4, t4, [⟨none, 1, true⟩, ⟨some .Day, 1, true⟩, ⟨some .Day, 1, false⟩]⟩] (Timestamp.now t4)
      Range.Month zeroPolicy = .ok [⟨p0, t0, []⟩, ⟨p1, t1, []⟩, ⟨p2, t2, []⟩, ⟨p3, t3, [⟨some .Day, 2, true⟩, ⟨some .Day, 2, false⟩]⟩, ⟨p4, t4, [⟨none, 1, true⟩, ⟨some .Day, 1, true⟩, ⟨some .Day, 1, false⟩]⟩] from rfl, bindOk]
    rw [List.foldlM_cons, show mark_range [⟨p0, t0, []⟩, ⟨p1, t1, []⟩, ⟨p2, t2, []⟩, ⟨p3, t3, [⟨some .Day, 2, true⟩, ⟨some .Day, 2, false⟩]⟩, ⟨p4, t4, [⟨none, 1, true⟩, ⟨some .Day, 1, true⟩, ⟨some .Day, 1, false⟩]⟩] (Timestamp.now t4)
      Range.Year zeroPolicy = .ok [⟨p0, t0, []⟩, ⟨p1, t1, []⟩, ⟨p2, t2, []⟩, ⟨p3, t3, [⟨some .Day, 2, true⟩, ⟨some .Day, 2, false⟩]⟩, ⟨p4, t4, [⟨none, 1, true⟩, ⟨some .Day, 1, true⟩, ⟨some .Day, 1, false⟩]⟩] from rfl, bindOk]
    rw [List.foldlM_nil]
    rfl
  have hsort5 : List.insertionSort Entry.le [⟨p0, t0, []⟩, ⟨p1, t1, []⟩, ⟨p2, t2, []⟩, ⟨p3, t3, [⟨some .Day, 2, true⟩, ⟨some .Day, 2, false⟩]⟩, ⟨p4, t4, [⟨none, 1, true⟩, ⟨some .Day, 1, true⟩, ⟨some .Day, 1, false⟩]⟩] = [⟨p0, t0, []⟩, ⟨p1, t1, []⟩, ⟨p2, t2, []⟩, ⟨p3, t3, [⟨some .Day, 2, true⟩, ⟨some .Day, 2, false⟩]⟩, ⟨p4, t4, [⟨none, 1, true⟩, ⟨some .Day, 1, true⟩, ⟨some .Day, 1, false⟩]⟩] :=
    List.Sorted.insertionSort_eq (entry_sorted_five l01 l12 l23 l34)
  have hfold2 : (scenarioRanges.iter_ranges).foldlM
      (fun es rc => mark_range es (Timestamp.now t4) rc.1 rc.2)
      (markLatest (List.insertionSort Entry.le [⟨p0, t0, []⟩, ⟨p1, t1, []⟩, ⟨p2, t2, []⟩, ⟨p3, t3, []⟩, ⟨p4, t4, []⟩])
        scenarioRanges.latest) = .ok [⟨p0, t0, []⟩, ⟨p1, t1, []⟩, ⟨p2, t2, []⟩, ⟨p3, t3, [⟨some .Day, 2, true⟩, ⟨some .Day, 2, false⟩]⟩, ⟨p4, t4, [⟨none, 1, true⟩, ⟨some .Day, 1, true⟩, ⟨some .Day, 1, false⟩]⟩] := by
    rw [hsort0]
    rw [show markLatest [⟨p0, t0, []⟩, ⟨p1, t1, []⟩, ⟨p2, t2, []⟩, ⟨p3, t3, []⟩, ⟨p4, t4, []⟩] scenarioRanges.latest = [⟨p0, t0, []⟩, ⟨p1, t1, []⟩, ⟨p2, t2, []⟩, ⟨p3, t3, []⟩, ⟨p4, t4, [⟨none, 1, true⟩]⟩] from rfl]
    exact hfold
  have hmain := read_backups_eval hce hfold2
  rw [hsort5] at hmain
  exact hmain

/-- C1: end-to-end scenario — with current time `T` and five entries whose
timestamps are `T-4d, T-3d, T-2d, T-1d, T` (automatically on distinct
calendar days with distinct timestamps, since a day shift steps the
calendar date), under policy `latest = 1`,
`days = {total: 2, allow_sparse: true, include_first: true,
include_last: true}` and `total = 0` for the other four ranges,
`read_backups` decorates the entry at `T` with exactly
`{latest #1, first of day #1, last of day #1}`, the entry at `T-1d` with
exactly `{first of day #2, last of day #2}`, and leaves the fulfillment
sets of the entries at `T-2d`, `T-3d`, `T-4d` empty. -/
theorem end_to_end_scenario (T : Timestamp) (p0 p1 p2 p3 p4 : String) :
    read_backups [(p0, T.shift .Day (-4)), (p1, T.shift .Day (-3)),
        (p2, T.shift .Day (-2)), (p3, T.shift .Day (-1)), (p4, T)] T
      scenarioRanges =
    .ok [⟨p0, T.shift .Day (-4), []⟩, ⟨p1, T.shift .Day (-3), []⟩,
      ⟨p2, T.shift .Day (-2), []⟩,
      ⟨p3, T.shift .Day (-1),
        [⟨some .Day, 2, true⟩, ⟨some .Day, 2, false⟩]⟩,
      ⟨p4, T, [⟨none, 1, true⟩, ⟨some .Day, 1, true⟩,
        ⟨some .Day, 1, false⟩]⟩] := by
  have e4 : T.shift .Day (-4) = Timestamp.prevDay^[4] T := by
    rw [show (-4 : Int) = -((4 : Nat) : Int) from rfl]
    exact Timestamp.shift_day_neg T 4 (by omega)
  have e3 : T.shift .Day (-3) = Timestamp.prevDay^[3] T := by
    rw [show (-3 : Int) = -((3 : Nat) : Int) from rfl]
    exact Timestamp.shift_day_neg T 3 (by omega)
  have e2 : T.shift .Day (-2) = Timestamp.prevDay^[2] T := by
    rw [show (-2 : Int) = -((2 : Nat) : Int) from rfl]
    exact Timestamp.shift_day_neg T 2 (by omega)
  have e1 : T.shift .Day (-1) = Timestamp.prevDay^[1] T := by
    rw [show (-1 : Int) = -((1 : Nat) : Int) from rfl]
    exact Timestamp.shift_day_neg T 1 (by omega)
  rw [e4, e3, e2, e1]
  exact scenario_core (Timestamp.prevDay^[4] T) (Timestamp.prevDay^[3] T)
    (Timestamp.prevDay^[2] T) (Timestamp.prevDay^[1] T) T p0 p1 p2 p3 p4
    (Timestamp.prevDay_iterate_lt T 3) (Timestamp.prevDay_iterate_lt T 2)
    (Timestamp.prevDay_iterate_lt T 1) (Timestamp.prevDay_iterate_lt T 0)
    (Timestamp.prevDay_iterate_date_lt T 3)
    (Timestamp.prevDay_iterate_date_lt T 2)
    (Timestamp.prevDay_iterate_date_lt T 1)
    (Timestamp.prevDay_iterate_date_lt T 0)
